import Mathlib

/-!
Verification of the `agent_sdk` Python package (SSE event codec, invocation
context builder, platform client) against its natural-language specification.

The Python sources are shallowly embedded: strings are Lean `String`s
(operated on through their `List Char` data, matching Python's
code-point-indexed `str`), JSON values are an inductive `Json`, fallible
operations return `Option`/`Except`, and async generators are embedded as the
finite list of values they yield.
-/

set_option linter.unusedVariables false

/- ===================================================================
   Character-level helpers (Python `str` / `json` semantics)
   =================================================================== -/

/-- Whitespace characters stripped by Python's `str.strip()` (ASCII part;
the inputs handled here are ASCII-framed SSE lines). -/
def isPyWs (c : Char) : Bool :=
  c = ' ' || c = '\t' || c = '\n' || c = '\r' || c = '\x0b' || c = '\x0c'

/-- Whitespace the `json` module skips between tokens (space, tab, LF, CR). -/
def isJsonWs (c : Char) : Bool :=
  c = ' ' || c = '\t' || c = '\n' || c = '\r'

/-- Skip JSON inter-token whitespace. -/
def skipWs : List Char → List Char
  | [] => []
  | c :: t => if isJsonWs c then skipWs t else c :: t

/-- Python `str.strip()` on a list of characters. -/
def stripL (l : List Char) : List Char :=
  ((l.dropWhile isPyWs).reverse.dropWhile isPyWs).reverse

/-- Python `str.startswith` on lists of characters (pattern first). -/
def startsWithL : List Char → List Char → Bool
  | [], _ => true
  | _ :: _, [] => false
  | p :: ps, c :: cs => p = c && startsWithL ps cs

/-- Decimal digit character for a value `0 ≤ n ≤ 9`. -/
def digitChar : Nat → Char
  | 0 => '0' | 1 => '1' | 2 => '2' | 3 => '3' | 4 => '4'
  | 5 => '5' | 6 => '6' | 7 => '7' | 8 => '8' | _ => '9'

/-- Numeric value of a decimal digit character. -/
def digitVal (c : Char) : Nat := c.toNat - 48

/-- Lowercase hexadecimal digit character for `0 ≤ n ≤ 15`, as produced by
Python's `json` encoder in `\uXXXX` escapes. -/
def hexDigitChar : Nat → Char
  | 0 => '0' | 1 => '1' | 2 => '2' | 3 => '3' | 4 => '4' | 5 => '5'
  | 6 => '6' | 7 => '7' | 8 => '8' | 9 => '9' | 10 => 'a' | 11 => 'b'
  | 12 => 'c' | 13 => 'd' | 14 => 'e' | _ => 'f'

/-- Value of a hexadecimal digit character (either case), `none` otherwise. -/
def hexVal (c : Char) : Option Nat :=
  if c.isDigit then some (c.toNat - 48)
  else if 'a' ≤ c ∧ c ≤ 'f' then some (c.toNat - 87)
  else if 'A' ≤ c ∧ c ≤ 'F' then some (c.toNat - 55)
  else none

/-- Fuel-indexed helper for `natDigits`; any fuel above the number suffices. -/
def natDigitsF : Nat → Nat → List Char
  | 0, _ => []
  | fuel + 1, n =>
    if n < 10 then [digitChar n] else natDigitsF fuel (n / 10) ++ [digitChar (n % 10)]

/-- Decimal digit string of a natural number, most significant digit first. -/
def natDigits (n : Nat) : List Char := natDigitsF (n + 1) n

/-- Numeric value of a decimal digit string (fold, most significant first). -/
def digitsToNat (ds : List Char) : Nat :=
  ds.foldl (fun a c => 10 * a + digitVal c) 0

/- ===================================================================
   JSON values and Python's `json.dumps` (default separators,
   `ensure_ascii=False`), as used by `format_sse_event` and the clients
   =================================================================== -/

/-- JSON values: the payloads exchanged over the SSE event protocol.
(Floats are out of scope; every payload built by the SDK holds strings,
integers, booleans, nulls, arrays and objects.) -/
inductive Json where
  | str (s : String)
  | int (n : Int)
  | bool (b : Bool)
  | null
  | arr (elems : List Json)
  | obj (fields : List (String × Json))

/-- One-character escape of Python's JSON encoder (`ensure_ascii=False`):
backslash, double quote and control characters are escaped, everything else
passes through verbatim. -/
def escapeChar (c : Char) : List Char :=
  if c = '\\' then ['\\', '\\']
  else if c = '"' then ['\\', '"']
  else if c = '\x08' then ['\\', 'b']
  else if c = '\x0c' then ['\\', 'f']
  else if c = '\n' then ['\\', 'n']
  else if c = '\r' then ['\\', 'r']
  else if c = '\t' then ['\\', 't']
  else if c.toNat < 0x20 then
    ['\\', 'u', '0', '0', hexDigitChar (c.toNat / 16), hexDigitChar (c.toNat % 16)]
  else [c]

/-- Escape a whole string body. -/
def escapeL : List Char → List Char
  | [] => []
  | c :: t => escapeChar c ++ escapeL t

/-- Model of `json.dumps` of a string, including the surrounding quotes. -/
def dumpStrL (s : String) : List Char := '"' :: (escapeL s.data ++ ['"'])

/-- Model of `json.dumps` of an integer. -/
def dumpIntL (n : Int) : List Char :=
  if n < 0 then '-' :: natDigits (-n).toNat else natDigits n.toNat

mutual

/-- Model of `json.dumps` of a JSON value with Python's default separators
(`", "` and `": "`). -/
def dumpsL : Json → List Char
  | .str s => dumpStrL s
  | .int n => dumpIntL n
  | .bool true => ['t', 'r', 'u', 'e']
  | .bool false => ['f', 'a', 'l', 's', 'e']
  | .null => ['n', 'u', 'l', 'l']
  | .arr es => '[' :: (dumpElemsL es ++ [']'])
  | .obj fs => '\x7b' :: (dumpFieldsL fs ++ ['\x7d'])
  termination_by structural j => j

/-- Serialize the elements of an array (no surrounding brackets). -/
def dumpElemsL : List Json → List Char
  | [] => []
  | e :: rest => dumpsL e ++ dumpElemsTail rest
  termination_by structural l => l

/-- Serialize trailing array elements, each preceded by `", "`. -/
def dumpElemsTail : List Json → List Char
  | [] => []
  | e :: rest => ',' :: ' ' :: (dumpsL e ++ dumpElemsTail rest)
  termination_by structural l => l

/-- Serialize the fields of an object (no surrounding braces). -/
def dumpFieldsL : List (String × Json) → List Char
  | [] => []
  | (k, v) :: rest => dumpStrL k ++ ':' :: ' ' :: (dumpsL v ++ dumpFieldsTail rest)
  termination_by structural l => l

/-- Serialize trailing object fields, each preceded by `", "`. -/
def dumpFieldsTail : List (String × Json) → List Char
  | [] => []
  | (k, v) :: rest => ',' :: ' ' :: (dumpStrL k ++ ':' :: ' ' :: (dumpsL v ++ dumpFieldsTail rest))
  termination_by structural l => l

end

/-- Model of `json.dumps` producing a `String`, as called by `format_sse_event`. -/
def jsonDumps (j : Json) : String := String.mk (dumpsL j)

/- ===================================================================
   JSON parsing (model of `json.loads`, used by the streaming clients)
   =================================================================== -/

/-- Parse the body of a JSON string after the opening quote, undoing the
escapes; returns the decoded characters and the input after the closing
quote. -/
def parseStrBody : List Char → Option (List Char × List Char)
  | [] => none
  | c :: rest =>
    if c = '"' then some ([], rest)
    else if c = '\\' then
      match rest with
      | [] => none
      | e :: rest2 =>
        if e = '"' then (fun p => ('"' :: p.1, p.2)) <$> parseStrBody rest2
        else if e = '\\' then (fun p => ('\\' :: p.1, p.2)) <$> parseStrBody rest2
        else if e = '/' then (fun p => ('/' :: p.1, p.2)) <$> parseStrBody rest2
        else if e = 'b' then (fun p => ('\x08' :: p.1, p.2)) <$> parseStrBody rest2
        else if e = 'f' then (fun p => ('\x0c' :: p.1, p.2)) <$> parseStrBody rest2
        else if e = 'n' then (fun p => ('\n' :: p.1, p.2)) <$> parseStrBody rest2
        else if e = 'r' then (fun p => ('\r' :: p.1, p.2)) <$> parseStrBody rest2
        else if e = 't' then (fun p => ('\t' :: p.1, p.2)) <$> parseStrBody rest2
        else if e = 'u' then
          match rest2 with
          | h1 :: h2 :: h3 :: h4 :: rest3 =>
            match hexVal h1, hexVal h2, hexVal h3, hexVal h4 with
            | some a, some b, some c2, some d =>
              (fun p => (Char.ofNat (((a * 16 + b) * 16 + c2) * 16 + d) :: p.1, p.2)) <$>
                parseStrBody rest3
            | _, _, _, _ => none
          | _ => none
        else none
    else (fun p => (c :: p.1, p.2)) <$> parseStrBody rest

/-- Parse a maximal run of decimal digits into a natural number. -/
def parseNum (cs : List Char) : Option (Nat × List Char) :=
  let ds := cs.takeWhile Char.isDigit
  if ds.isEmpty then none else some (digitsToNat ds, cs.dropWhile Char.isDigit)

mutual

/-- Parse one JSON value (fuel-indexed to bound recursion); returns the value
and the remaining input. -/
def parseVal : Nat → List Char → Option (Json × List Char)
  | 0, _ => none
  | fuel + 1, cs =>
    match skipWs cs with
    | [] => none
    | c :: rest =>
      if c = '\x7b' then (fun p => (Json.obj p.1, p.2)) <$> parseFields fuel rest
      else if c = '[' then (fun p => (Json.arr p.1, p.2)) <$> parseElems fuel rest
      else if c = '"' then
        (fun p => (Json.str (String.mk p.1), p.2)) <$> parseStrBody rest
      else if c = 't' then
        match rest with
        | 'r' :: 'u' :: 'e' :: r => some (Json.bool true, r)
        | _ => none
      else if c = 'f' then
        match rest with
        | 'a' :: 'l' :: 's' :: 'e' :: r => some (Json.bool false, r)
        | _ => none
      else if c = 'n' then
        match rest with
        | 'u' :: 'l' :: 'l' :: r => some (Json.null, r)
        | _ => none
      else if c = '-' then
        (fun p => (Json.int (-(p.1 : Int)), p.2)) <$> parseNum rest
      else if c.isDigit then
        (fun p => (Json.int (p.1 : Int), p.2)) <$> parseNum (c :: rest)
      else none
  termination_by structural fuel cs => fuel

/-- Parse object fields after the opening brace, returning them with the
input after the closing brace. -/
def parseFields : Nat → List Char → Option (List (String × Json) × List Char)
  | 0, _ => none
  | fuel + 1, cs =>
    match skipWs cs with
    | [] => none
    | c :: rest =>
      if c = '\x7d' then some ([], rest)
      else if c = '"' then
        match parseStrBody rest with
        | some (k, r1) =>
          match skipWs r1 with
          | ':' :: r2 =>
            match parseVal fuel r2 with
            | some (v, r3) =>
              match skipWs r3 with
              | ',' :: r4 =>
                match parseFields fuel r4 with
                | some (fs, r5) => some ((String.mk k, v) :: fs, r5)
                | none => none
              | c2 :: r4 =>
                if c2 = '\x7d' then some ([(String.mk k, v)], r4) else none
              | [] => none
            | none => none
          | _ => none
        | none => none
      else none
  termination_by structural fuel cs => fuel

/-- Parse array elements after the opening bracket, returning them with the
input after the closing bracket. -/
def parseElems : Nat → List Char → Option (List Json × List Char)
  | 0, _ => none
  | fuel + 1, cs =>
    match skipWs cs with
    | [] => none
    | c :: rest =>
      if c = ']' then some ([], rest)
      else
        match parseVal fuel (c :: rest) with
        | some (v, r1) =>
          match skipWs r1 with
          | ',' :: r2 =>
            match parseElems fuel r2 with
            | some (es, r3) => some (v :: es, r3)
            | none => none
          | c2 :: r2 => if c2 = ']' then some ([v], r2) else none
          | [] => none
        | none => none
  termination_by structural fuel cs => fuel

end

/-- Model of `json.loads` on a list of characters: parse one value, allow surrounding
whitespace, reject trailing input. `none` models the raised decode error. -/
def jsonLoadsL (cs : List Char) : Option Json :=
  match parseVal (2 * cs.length + 1) cs with
  | some (v, rest) => if (skipWs rest).isEmpty then some v else none
  | none => none

/-- Split a text into lines at newline characters, Python
`str.splitlines`-style (no final empty line for a trailing newline), which is
also how the HTTP client's line iterator chops a streamed body. -/
def splitlinesL : List Char → List (List Char)
  | [] => []
  | c :: t =>
    if c = '\n' then [] :: splitlinesL t
    else
      match splitlinesL t with
      | [] => [[c]]
      | line :: rest => (c :: line) :: rest

mutual

/-- Parser-fuel cost of a JSON value. -/
def sizeJ : Json → Nat
  | .str _ => 1
  | .int _ => 1
  | .bool _ => 1
  | .null => 1
  | .arr es => 2 + sizeElems es
  | .obj fs => 2 + sizeFields fs
  termination_by structural j => j

/-- Parser-fuel cost of array elements. -/
def sizeElems : List Json → Nat
  | [] => 0
  | e :: r => 1 + sizeJ e + sizeElems r
  termination_by structural l => l

/-- Parser-fuel cost of object fields. -/
def sizeFields : List (String × Json) → Nat
  | [] => 0
  | (_, v) :: r => 1 + sizeJ v + sizeFields r
  termination_by structural l => l

end
/-- The characters that may legitimately follow a serialized JSON value in
the middle of a larger serialization (or the end of input). -/
def delimOk : List Char → Prop
  | [] => True
  | c :: _ => c = ',' ∨ c = '\x7d' ∨ c = ']'

/- ===================================================================
   models.py — request/response data model
   =================================================================== -/

/-- Model of `Message` (models.py): role is a plain string field; its description names
user/assistant/system but the declared type is `str`. -/
structure Message where
  role : String
  content : String
deriving DecidableEq

/-- Model of `InvokeRequest` (models.py): wire-level body of POST /invoke; `messages`
and `context` are optional with default `None`. -/
structure InvokeRequest where
  agent_id : String
  session_id : String
  run_id : String
  input_message : Message
  messages : Option (List Message)
  context : Option (List (String × Json))

/-- Model of `InvokeContext` (models.py): normalized view handed to the agent. -/
structure InvokeContext where
  agent_id : String
  session_id : String
  run_id : String
  input_message : Message
  messages : List Message
  context : List (String × Json)
  traceparent : Option String
  platform_base_url : Option String

/-- Python `x or y` where `x` is an optional list-like value: `None` and the
empty collection are falsy. -/
def pyOrList (x : Option (List α)) (y : List α) : List α :=
  match x with
  | none => y
  | some l => if l.isEmpty then y else l

/-- Model of `InvokeContext.from_request` (models.py): copies the request fields,
defaulting `messages`/`context` with Python `or`, and takes `traceparent` and
`platform_base_url` from its own (header-sourced) parameters. -/
def InvokeContext.from_request (request : InvokeRequest)
    (traceparent platform_base_url : Option String) : InvokeContext :=
  { agent_id := request.agent_id
    session_id := request.session_id
    run_id := request.run_id
    input_message := request.input_message
    messages := pyOrList request.messages []
    context := pyOrList request.context []
    traceparent := traceparent
    platform_base_url := platform_base_url }

/-- Model of `Usage` (models.py): four optional counters. -/
structure Usage where
  tokens : Option Int
  prompt_tokens : Option Int
  completion_tokens : Option Int
  duration_ms : Option Int

/-- Pydantic `model_dump(exclude_none=True)`: fields whose value is `None`
are omitted from the resulting object entirely. -/
def catFields : List (String × Option Json) → List (String × Json)
  | [] => []
  | (k, some v) :: r => (k, v) :: catFields r
  | (_, none) :: r => catFields r

/-- Model of `Usage.model_dump(exclude_none=True)` as a JSON object. -/
def Usage.dump (u : Usage) : Json :=
  Json.obj (catFields
    [("tokens", u.tokens.map Json.int),
     ("prompt_tokens", u.prompt_tokens.map Json.int),
     ("completion_tokens", u.completion_tokens.map Json.int),
     ("duration_ms", u.duration_ms.map Json.int)])

/-- Model of `DeltaEvent(...).model_dump(exclude_none=True)`. -/
def DeltaEvent.dump (text : String) (run_id : Option String) : Json :=
  Json.obj (catFields
    [("text", some (Json.str text)), ("run_id", run_id.map Json.str)])

/-- Model of `StateEvent(...).model_dump(exclude_none=True)`. -/
def StateEvent.dump (state : String) (detail : Option (List (String × Json))) : Json :=
  Json.obj (catFields
    [("state", some (Json.str state)), ("detail", detail.map Json.obj)])

/-- Model of `DoneEvent(...).model_dump(exclude_none=True)` (recursing into `Usage`). -/
def DoneEvent.dump (final_message : Option String) (usage : Option Usage) : Json :=
  Json.obj (catFields
    [("final_message", final_message.map Json.str), ("usage", usage.map Usage.dump)])

/-- Model of `ErrorEvent(...).model_dump()`: both fields are required strings. -/
def ErrorEvent.dump (code message : String) : Json :=
  Json.obj [("code", Json.str code), ("message", Json.str message)]

/- ===================================================================
   sse.py — SSE event encoding and the text-streaming helpers
   =================================================================== -/

/-- Model of `SSEEventType` (models.py). -/
inductive SSEEventType where
  | delta
  | state
  | done
  | error

/-- The wire value of each event type. -/
def SSEEventType.value : SSEEventType → String
  | .delta => "delta"
  | .state => "state"
  | .done => "done"
  | .error => "error"

/-- Model of `format_sse_event` (sse.py): dict payloads are JSON-encoded, strings pass
through verbatim; the frame is `event: <type>\ndata: <data>\n\n`. -/
def format_sse_event (event_type : String) (data : Json ⊕ String) : String :=
  match data with
  | .inl d => "event: " ++ event_type ++ "\ndata: " ++ jsonDumps d ++ "\n\n"
  | .inr s => "event: " ++ event_type ++ "\ndata: " ++ s ++ "\n\n"

/-- Model of `SSEResponse` (sse.py): builder carrying the per-run `run_id`. -/
structure SSEResponse where
  run_id : Option String

/-- Model of `SSEResponse.delta`. -/
def SSEResponse.delta (sse : SSEResponse) (text : String) : String :=
  format_sse_event SSEEventType.delta.value (.inl (DeltaEvent.dump text sse.run_id))

/-- Model of `SSEResponse.state`. -/
def SSEResponse.state (sse : SSEResponse) (state : String)
    (detail : Option (List (String × Json))) : String :=
  format_sse_event SSEEventType.state.value (.inl (StateEvent.dump state detail))

/-- Model of `SSEResponse.done`. -/
def SSEResponse.done (sse : SSEResponse) (final_message : Option String)
    (usage : Option Usage) : String :=
  format_sse_event SSEEventType.done.value (.inl (DoneEvent.dump final_message usage))

/-- Model of `SSEResponse.error`. -/
def SSEResponse.error (sse : SSEResponse) (code message : String) : String :=
  format_sse_event SSEEventType.error.value (.inl (ErrorEvent.dump code message))

/-- Fuel-indexed helper for `chunksL`. -/
def chunksF : Nat → Nat → List Char → List (List Char)
  | 0, _, _ => []
  | _ + 1, _, [] => []
  | fuel + 1, cs, c :: t => (c :: t).take cs :: chunksF fuel cs (t.drop (cs - 1))

/-- The chunks visited by `range(0, len(text), chunk_size)` slicing
`text[i : i + chunk_size]` (Python indexes by code point). -/
def chunksL (cs : Nat) (l : List Char) : List (List Char) := chunksF l.length cs l

/-- Model of `stream_text_sync` (sse.py): a delta event per chunk, then one done event
carrying the whole text. -/
def stream_text_sync (text : String) (run_id : Option String) (chunk_size : Nat) :
    List String :=
  (chunksL chunk_size text.data).map
      (fun ch => SSEResponse.delta { run_id := run_id } (String.mk ch))
    ++ [SSEResponse.done { run_id := run_id } (some text) none]

/-- Model of `stream_text` (sse.py): same yielded sequence as `stream_text_sync`; the
`asyncio.sleep` between chunks suspends but emits nothing, so the delay does
not appear in the event sequence. -/
def stream_text (text : String) (run_id : Option String) (chunk_size : Nat)
    (delay_ms : Nat) : List String :=
  (chunksL chunk_size text.data).map
      (fun ch => SSEResponse.delta { run_id := run_id } (String.mk ch))
    ++ [SSEResponse.done { run_id := run_id } (some text) none]

/- ===================================================================
   agent.py — the /invoke dispatcher, FunctionAgent and create_agent
   =================================================================== -/

/-- The transport headers the `/invoke` handler reads (agent.py lines
166-172): `traceparent`, `x-platform-base-url`, `X-Session-ID`, `X-Run-ID`. -/
structure InvokeHeaders where
  traceparent : Option String
  x_platform_base_url : Option String
  x_session_id : Option String
  x_run_id : Option String

/-- The context construction performed by `invoke_handler` (agent.py): header
lookup with the body value as default, write-back into the body when the
value differs, then `InvokeContext.from_request`. -/
def invoke_handler_ctx (body : InvokeRequest) (h : InvokeHeaders) : InvokeContext :=
  let session_id := h.x_session_id.getD body.session_id
  let run_id := h.x_run_id.getD body.run_id
  let body1 :=
    if session_id ≠ body.session_id then { body with session_id := session_id } else body
  let body2 :=
    if run_id ≠ body1.run_id then { body1 with run_id := run_id } else body1
  InvokeContext.from_request body2 h.traceparent h.x_platform_base_url

/-- Look a key up in a JSON object's fields (first occurrence). -/
def jGet (fields : List (String × Json)) (k : String) : Option Json :=
  (fields.find? (fun kv => kv.1 = k)).map (fun kv => kv.2)

/-- Read a required string field, pydantic-style: present and a string. -/
def jGetStr (fields : List (String × Json)) (k : String) : Option String :=
  match jGet fields k with
  | some (Json.str s) => some s
  | _ => none

/-- Pydantic validation of `Message`: both `role` and `content` must be
strings; the role value itself is not constrained further (the field's type
is `str`, not the `Role` enum). -/
def parseMessage (j : Json) : Option Message :=
  match j with
  | Json.obj fields =>
    match jGetStr fields "role", jGetStr fields "content" with
    | some role, some content => some { role := role, content := content }
    | _, _ => none
  | _ => none

/-- Validate a list of messages elementwise. -/
def parseMessageList : List Json → Option (List Message)
  | [] => some []
  | j :: r =>
    match parseMessage j, parseMessageList r with
    | some m, some ms => some (m :: ms)
    | _, _ => none

/-- Pydantic validation of `InvokeRequest` from a JSON body: the four
required fields must be present and well-typed; `messages`/`context` may be
absent or null (⇒ `None`). `none` models the FastAPI 422 validation
rejection. -/
def parseInvokeRequest (j : Json) : Option InvokeRequest :=
  match j with
  | Json.obj fields =>
    match jGetStr fields "agent_id", jGetStr fields "session_id",
        jGetStr fields "run_id", jGet fields "input_message" with
    | some a, some s, some r, some im =>
      match parseMessage im with
      | some m =>
        let msgs : Option (Option (List Message)) :=
          match jGet fields "messages" with
          | none => some none
          | some Json.null => some none
          | some (Json.arr l) => (parseMessageList l).map some
          | some _ => none
        let ctx : Option (Option (List (String × Json))) :=
          match jGet fields "context" with
          | none => some none
          | some Json.null => some none
          | some (Json.obj fs) => some (some fs)
          | some _ => none
        match msgs, ctx with
        | some ms, some cx =>
          some { agent_id := a, session_id := s, run_id := r, input_message := m,
                 messages := ms, context := cx }
        | _, _ => none
      | none => none
    | _, _, _, _ => none
  | _ => none

/-- Outcome of one POST /invoke call: a 4xx validation rejection with no
stream, or a streaming response relaying the agent's event strings. -/
inductive HandlerResult where
  | validationError (status : Nat)
  | stream (events : List String)

/-- Model of `invoke_handler` (agent.py): FastAPI validates the body into
`InvokeRequest` (422 on failure, before any stream exists); on success the
context is built and the agent's event iterator becomes the response body. -/
def invoke_handler (agent_invoke : InvokeContext → List String) (bodyJson : Json)
    (h : InvokeHeaders) : HandlerResult :=
  match parseInvokeRequest bodyJson with
  | none => .validationError 422
  | some body => .stream (agent_invoke (invoke_handler_ctx body h))

/-- The re-yield loop in `FunctionAgent.invoke`:
`async for event in self._handler(ctx): yield event`. -/
def relayAll : List String → List String
  | [] => []
  | e :: r => e :: relayAll r

/-- Model of `FunctionAgent` (agent.py): an agent wrapping a plain handler. -/
structure FunctionAgent where
  agent_id : String
  name : String
  handler : InvokeContext → List String
  version : String
  capabilities : List String

/-- Model of `FunctionAgent.invoke`: iterate the wrapped handler and re-yield each
event. -/
def FunctionAgent.invoke (a : FunctionAgent) (ctx : InvokeContext) : List String :=
  relayAll (a.handler ctx)

/-- Model of `create_agent` (agent.py): the decorator returns a `FunctionAgent` built
from the handler with the given metadata. -/
def create_agent (agent_id name version : String) (capabilities : Option (List String))
    (handler : InvokeContext → List String) : FunctionAgent :=
  { agent_id := agent_id
    name := name
    handler := handler
    version := version
    capabilities := pyOrList capabilities [] }

/- ===================================================================
   client.py — platform client: errors, tool lifecycle, streaming readers
   =================================================================== -/

/-- The exceptions that can surface from one outbound HTTP call:
`httpx.HTTPStatusError` (from `raise_for_status`), an httpx connection-level
error, or the SDK's own `PlatformError` (client.py defines it with a code
and message, but no client code path raises it). -/
inductive ClientError where
  | httpStatus (status : Nat)
  | connect
  | platform (code : String) (message : String)
deriving DecidableEq

/-- The JSON body of a 2xx tool-endpoint response, with the fields the client
reads (`tool_call_id`/`status` via `data[...]`, `result`/`error` via
`data.get(...)`). -/
structure ToolCallBody where
  tool_call_id : String
  status : String
  result : Option Json
  error : Option Json

/-- An HTTP response the transport delivered: status code plus tool body. -/
structure HttpResponse where
  status : Nat
  body : ToolCallBody

/-- Model of `httpx.Response.raise_for_status`: raises `HTTPStatusError` unless the
status is a 2xx success. -/
def raise_for_status (r : HttpResponse) : Except ClientError Unit :=
  if 200 ≤ r.status ∧ r.status < 300 then .ok () else .error (.httpStatus r.status)

/-- Model of `ToolResult` (client.py). -/
structure ToolResult where
  tool_call_id : String
  status : String
  result : Option Json
  error : Option Json

/-- Model of `ToolResult.succeeded`. -/
def ToolResult.succeeded (r : ToolResult) : Bool := r.status = "succeeded"

/-- Model of `ToolResult.pending`. -/
def ToolResult.pending (r : ToolResult) : Bool := r.status = "pending"

/-- Model of `ToolResult.failed`. -/
def ToolResult.failed (r : ToolResult) : Bool := r.status = "failed"

namespace ToolClient

/-- One tool-endpoint round trip as `ToolClient.invoke`, `get_status` and
`wait` all perform it: the transport either fails at connection level or
yields a response; `raise_for_status` rejects non-2xx; on success a
`ToolResult` is built from the body fields. -/
def roundTrip (transport : Except ClientError HttpResponse) : Except ClientError ToolResult :=
  match transport with
  | .error e => .error e
  | .ok resp =>
    match raise_for_status resp with
    | .error e => .error e
    | .ok _ =>
      .ok { tool_call_id := resp.body.tool_call_id, status := resp.body.status,
            result := resp.body.result, error := resp.body.error }

/-- Model of `ToolClient.invoke` (client.py): POST `/v1/tools/{name}:invoke`. -/
def invoke (transport : Except ClientError HttpResponse) : Except ClientError ToolResult :=
  roundTrip transport

/-- Model of `ToolClient.get_status` (client.py): GET `/v1/tool_calls/{id}`. -/
def get_status (transport : Except ClientError HttpResponse) : Except ClientError ToolResult :=
  roundTrip transport

/-- Model of `ToolClient.wait` (client.py): POST `/v1/tool_calls/{id}:wait`. -/
def wait (transport : Except ClientError HttpResponse) : Except ClientError ToolResult :=
  roundTrip transport

/-- The sub-calls `invoke_and_wait` performs, in order. -/
inductive Call where
  | invokeCall
  | waitCall
deriving DecidableEq

/-- Model of `ToolClient.invoke_and_wait` (client.py): one `invoke`; then one `wait`
exactly when the invoke result is pending; the result of that single `wait`
(or the invoke result itself) is returned. The trace records the sub-calls
made. -/
def invoke_and_wait (tInvoke tWait : Except ClientError HttpResponse) :
    Except ClientError ToolResult × List Call :=
  match invoke tInvoke with
  | .error e => (.error e, [.invokeCall])
  | .ok result =>
    if result.pending then (wait tWait, [.invokeCall, .waitCall])
    else (.ok result, [.invokeCall])

end ToolClient

/-- Why `chat_completions_stream` stopped yielding. -/
inductive StreamEnd where
  | exhausted
  | doneSentinel
  | decodeFailure
deriving DecidableEq

/-- Model of `LLMClient.chat_completions_stream` (client.py), applied to the streamed
body's lines: keep only lines starting with `"data: "`, stop (yielding
nothing further) at the literal `[DONE]` payload, JSON-decode and yield every
other payload; a decode failure raises, aborting the stream. -/
def chat_completions_stream : List (List Char) → List Json × StreamEnd
  | [] => ([], .exhausted)
  | line :: rest =>
    if startsWithL "data: ".data line then
      let d := line.drop 6
      if d = "[DONE]".data then ([], .doneSentinel)
      else
        match jsonLoadsL d with
        | some v =>
          let p := chat_completions_stream rest
          (v :: p.1, p.2)
        | none => ([], .decodeFailure)
    else chat_completions_stream rest

/-- Model of `chat_completions_stream` on a whole response body, split into lines the
way the HTTP client's line iterator does. -/
def chat_completions_stream_body (body : String) : List Json × StreamEnd :=
  chat_completions_stream (splitlinesL body.data)

namespace AgentClient

/-- The SSE relay loop in `AgentClient.invoke` (client.py): each line is
stripped; blank lines are skipped; `event:` lines set the pending event type
(stripped of the prefix and surrounding whitespace); `data:` lines decode
their JSON payload and yield a pair with the current (possibly unset) event
type; any other line is ignored. A JSON decode failure raises, ending the
sequence. -/
def invoke : Option String → List (List Char) → List (Option String × Json)
  | _, [] => []
  | et, line :: rest =>
    let s := stripL line
    if s.isEmpty then invoke et rest
    else if startsWithL "event:".data s then
      invoke (some (String.mk (stripL (s.drop 6)))) rest
    else if startsWithL "data:".data s then
      match jsonLoadsL (stripL (s.drop 5)) with
      | some v => (et, v) :: invoke et rest
      | none => []
    else invoke et rest

end AgentClient

/-- The four event builders of `SSEResponse`, tagged with their arguments:
the domain of the encoding round-trip statement. -/
inductive BuiltEvent where
  | delta (text : String) (run_id : Option String)
  | state (state : String) (detail : Option (List (String × Json)))
  | done (final_message : Option String) (usage : Option Usage)
  | error (code : String) (message : String)

/-- Encode a built event exactly as the corresponding `SSEResponse` method
does (`delta` uses the builder's `run_id`; the others ignore it). -/
def BuiltEvent.encode : BuiltEvent → String
  | .delta text run_id => SSEResponse.delta { run_id := run_id } text
  | .state st detail => SSEResponse.state { run_id := none } st detail
  | .done fm u => SSEResponse.done { run_id := none } fm u
  | .error c m => SSEResponse.error { run_id := none } c m

/-- The event type each builder writes on the `event:` line. -/
def BuiltEvent.typeStr : BuiltEvent → String
  | .delta _ _ => "delta"
  | .state _ _ => "state"
  | .done _ _ => "done"
  | .error _ _ => "error"

/-- The JSON object each builder serializes: exactly the non-absent fields. -/
def BuiltEvent.payload : BuiltEvent → Json
  | .delta text run_id => DeltaEvent.dump text run_id
  | .state st d => StateEvent.dump st d
  | .done fm u => DoneEvent.dump fm u
  | .error c m => ErrorEvent.dump c m

/-- The concrete POST /invoke body whose input_message.role is "narrator". -/
def narratorBody : Json :=
  Json.obj [("agent_id", Json.str "demo"), ("session_id", Json.str "s1"),
    ("run_id", Json.str "r1"),
    ("input_message", Json.obj [("role", Json.str "narrator"), ("content", Json.str "hi")])]

/-- A concrete agent handler that streams the input back. -/
def echoHandler : InvokeContext → List String :=
  fun ctx => stream_text_sync ctx.input_message.content (some ctx.run_id) 10

/-- A request with none of the recognized headers set. -/
def noHeaders : InvokeHeaders :=
  { traceparent := none, x_platform_base_url := none,
    x_session_id := none, x_run_id := none }

/-- Does the operation's outcome carry the SDK's `PlatformError`? -/
def isPlatformError : Except ClientError ToolResult → Bool
  | .error (.platform _ _) => true
  | _ => false

/-- The chunks of a text concatenate back to the text. -/
def joinL : List (List Char) → List Char
  | [] => []
  | l :: r => l ++ joinL r

/- ===================================================================
   Theorems
   =================================================================== -/
/- ===================================================================
   Round-trip lemmas: `jsonLoadsL` is a left inverse of `dumpsL`
   =================================================================== -/

theorem natDigitsF_indep (n : Nat) :
    ∀ f1 f2, n < f1 → n < f2 → natDigitsF f1 n = natDigitsF f2 n := by
  induction n using Nat.strong_induction_on with
  | _ n ih =>
    intro f1 f2 h1 h2
    match f1, f2 with
    | g1 + 1, g2 + 1 =>
      simp only [natDigitsF]
      by_cases h : n < 10
      · simp [h]
      · have hd : n / 10 < n := Nat.div_lt_self (by omega) (by omega)
        simp only [h, if_false]
        rw [ih (n / 10) hd g1 g2 (by omega) (by omega)]

/-- The recursion equation `natDigits` satisfies. -/
theorem natDigits_eq (n : Nat) :
    natDigits n = if n < 10 then [digitChar n]
      else natDigits (n / 10) ++ [digitChar (n % 10)] := by
  unfold natDigits
  simp only [natDigitsF]
  by_cases h : n < 10
  · simp [h]
  · have hd : n / 10 < n := Nat.div_lt_self (by omega) (by omega)
    simp only [h, if_false]
    rw [natDigitsF_indep (n / 10) n (n / 10 + 1) (by omega) (by omega)]
    simp only [natDigitsF]

theorem digitVal_digitChar {d : Nat} (h : d < 10) : digitVal (digitChar d) = d := by
  interval_cases d <;> rfl

theorem isDigit_digitChar {d : Nat} (h : d < 10) : (digitChar d).isDigit = true := by
  interval_cases d <;> rfl

theorem natDigits_ne_nil (n : Nat) : natDigits n ≠ [] := by
  rw [natDigits_eq]
  split <;> simp

theorem natDigits_all_digits (n : Nat) : ∀ c ∈ natDigits n, c.isDigit = true := by
  induction n using Nat.strong_induction_on with
  | _ n ih =>
    rw [natDigits_eq]
    by_cases h : n < 10
    · simp [h, isDigit_digitChar]
    · have hd : n / 10 < n := Nat.div_lt_self (by omega) (by omega)
      simp only [h, if_false]
      intro c hc
      rcases List.mem_append.mp hc with hc | hc
      · exact ih (n / 10) hd c hc
      · simp at hc
        subst hc
        exact isDigit_digitChar (by omega)

theorem digitsToNat_natDigits (n : Nat) : digitsToNat (natDigits n) = n := by
  induction n using Nat.strong_induction_on with
  | _ n ih =>
    rw [natDigits_eq]
    by_cases h : n < 10
    · simp [h, digitsToNat, digitVal_digitChar h]
    · have hd : n / 10 < n := Nat.div_lt_self (by omega) (by omega)
      simp only [h, if_false]
      unfold digitsToNat
      rw [List.foldl_append]
      have := ih (n / 10) hd
      unfold digitsToNat at this
      rw [this]
      simp [digitVal_digitChar (Nat.mod_lt n (by omega) : n % 10 < 10)]
      omega

theorem takeWhile_all_append {p : Char → Bool} {l rest : List Char}
    (h : ∀ c ∈ l, p c = true) (h2 : ∀ c, rest.head? = some c → p c = false) :
    (l ++ rest).takeWhile p = l ∧ (l ++ rest).dropWhile p = rest := by
  induction l with
  | nil =>
    simp only [List.nil_append]
    cases rest with
    | nil => simp
    | cons c t => simp [List.takeWhile, List.dropWhile, h2 c rfl]
  | cons a l ih =>
    have ha : p a = true := h a (by simp)
    have := ih (fun c hc => h c (by simp [hc]))
    simp [List.takeWhile, List.dropWhile, ha, this.1, this.2]

theorem parseNum_natDigits (n : Nat) (rest : List Char)
    (h : ∀ c, rest.head? = some c → c.isDigit = false) :
    parseNum (natDigits n ++ rest) = some (n, rest) := by
  obtain ⟨ht, hd⟩ := takeWhile_all_append (natDigits_all_digits n) h
  simp only [parseNum, ht, hd]
  have hne := natDigits_ne_nil n
  simp [List.isEmpty_iff, hne, digitsToNat_natDigits]

theorem hexVal_hexDigitChar {x : Nat} (h : x < 16) : hexVal (hexDigitChar x) = some x := by
  interval_cases x <;> rfl

theorem string_mk_data (s : String) : String.mk s.data = s := by
  cases s
  rfl

theorem string_data_append (s t : String) : (s ++ t).data = s.data ++ t.data := by
  cases s
  cases t
  rfl

/-- Unescaping is a left inverse of escaping: parsing the escaped body up to
the closing quote recovers the original characters. -/
theorem parseStrBody_escape (s : List Char) (rest : List Char) :
    parseStrBody (escapeL s ++ '"' :: rest) = some (s, rest) := by
  induction s with
  | nil =>
    simp only [escapeL, List.nil_append]
    unfold parseStrBody
    simp
  | cons c t ih =>
    show parseStrBody ((escapeChar c ++ escapeL t) ++ '"' :: rest) = _
    by_cases h1 : c = '\\'
    · subst h1
      simp only [escapeChar, if_pos rfl, List.cons_append, List.append_assoc]
      unfold parseStrBody
      simp [ih]
    · by_cases h2 : c = '"'
      · subst h2
        simp only [escapeChar, h1, if_neg, if_pos rfl, List.cons_append, List.append_assoc,
          reduceIte]
        unfold parseStrBody
        simp [ih]
      · by_cases h3 : c = '\x08'
        · subst h3
          simp only [escapeChar, List.cons_append, List.append_assoc, reduceIte]
          unfold parseStrBody
          simp [ih]
        · by_cases h4 : c = '\x0c'
          · subst h4
            simp only [escapeChar, List.cons_append, List.append_assoc, reduceIte]
            unfold parseStrBody
            simp [ih]
          · by_cases h5 : c = '\n'
            · subst h5
              simp only [escapeChar, List.cons_append, List.append_assoc, reduceIte]
              unfold parseStrBody
              simp [ih]
            · by_cases h6 : c = '\r'
              · subst h6
                simp only [escapeChar, List.cons_append, List.append_assoc, reduceIte]
                unfold parseStrBody
                simp [ih]
              · by_cases h7 : c = '\t'
                · subst h7
                  simp only [escapeChar, List.cons_append, List.append_assoc, reduceIte]
                  unfold parseStrBody
                  simp [ih]
                · by_cases h8 : c.toNat < 0x20
                  · have e1 : escapeChar c =
                        ['\\', 'u', '0', '0', hexDigitChar (c.toNat / 16),
                          hexDigitChar (c.toNat % 16)] := by
                      simp [escapeChar, h1, h2, h3, h4, h5, h6, h7, h8]
                    rw [e1]
                    have hx1 : hexVal (hexDigitChar (c.toNat / 16)) = some (c.toNat / 16) :=
                      hexVal_hexDigitChar (by omega)
                    have hx2 : hexVal (hexDigitChar (c.toNat % 16)) = some (c.toNat % 16) :=
                      hexVal_hexDigitChar (by omega)
                    have hch : Char.ofNat (c.toNat / 16 * 16 + c.toNat % 16) = c := by
                      rw [show c.toNat / 16 * 16 + c.toNat % 16 = c.toNat by omega,
                        Char.ofNat_toNat]
                    have h0 : hexVal '0' = some 0 := rfl
                    simp only [List.cons_append, List.append_assoc]
                    unfold parseStrBody
                    simp [h0, hx1, hx2, ih, hch]
                  · have e1 : escapeChar c = [c] := by
                      simp [escapeChar, h1, h2, h3, h4, h5, h6, h7, h8]
                    rw [e1]
                    simp only [List.cons_append, List.append_assoc]
                    unfold parseStrBody
                    simp [h1, h2, ih]

theorem sizeJ_pos (v : Json) : 1 ≤ sizeJ v := by
  cases v with
  | str s => exact Nat.le_refl 1
  | int n => exact Nat.le_refl 1
  | bool b => exact Nat.le_refl 1
  | null => exact Nat.le_refl 1
  | arr es => show 1 ≤ 2 + sizeElems es; omega
  | obj fs => show 1 ≤ 2 + sizeFields fs; omega

theorem delimOk_head_not_digit {rest : List Char} (h : delimOk rest) :
    ∀ c, rest.head? = some c → c.isDigit = false := by
  cases rest with
  | nil => intro c hc; simp at hc
  | cons a t =>
    intro c hc
    simp at hc
    subst hc
    rcases h with h | h | h <;> subst h <;> decide

theorem skipWs_cons_of_not {c : Char} {cs : List Char} (h : isJsonWs c = false) :
    skipWs (c :: cs) = c :: cs := by
  show (if isJsonWs c then skipWs cs else c :: cs) = c :: cs
  simp [h]

theorem skipWs_cons_of_ws {c : Char} {cs : List Char} (h : isJsonWs c = true) :
    skipWs (c :: cs) = skipWs cs := by
  show (if isJsonWs c then skipWs cs else c :: cs) = skipWs cs
  simp [h]

theorem parseVal_ws (fuel : Nat) {c : Char} (h : isJsonWs c = true) (cs : List Char) :
    parseVal fuel (c :: cs) = parseVal fuel cs := by
  cases fuel with
  | zero => rfl
  | succ f =>
    unfold parseVal
    rw [skipWs_cons_of_ws h]

theorem parseFields_ws (fuel : Nat) {c : Char} (h : isJsonWs c = true) (cs : List Char) :
    parseFields fuel (c :: cs) = parseFields fuel cs := by
  cases fuel with
  | zero => rfl
  | succ f =>
    unfold parseFields
    rw [skipWs_cons_of_ws h]

theorem parseElems_ws (fuel : Nat) {c : Char} (h : isJsonWs c = true) (cs : List Char) :
    parseElems fuel (c :: cs) = parseElems fuel cs := by
  cases fuel with
  | zero => rfl
  | succ f =>
    unfold parseElems
    rw [skipWs_cons_of_ws h]

theorem natDigits_head (n : Nat) : ∃ d ds, natDigits n = digitChar d :: ds ∧ d < 10 := by
  induction n using Nat.strong_induction_on with
  | _ n ih =>
    rw [natDigits_eq]
    by_cases h : n < 10
    · exact ⟨n, [], by simp [h], h⟩
    · have hd : n / 10 < n := Nat.div_lt_self (by omega) (by omega)
      obtain ⟨d, ds, he, hlt⟩ := ih (n / 10) hd
      exact ⟨d, ds ++ [digitChar (n % 10)], by simp [h, he], hlt⟩

theorem digitChar_not_special {d : Nat} (h : d < 10) :
    digitChar d ≠ '\x7b' ∧ digitChar d ≠ '[' ∧ digitChar d ≠ '"' ∧ digitChar d ≠ 't' ∧
    digitChar d ≠ 'f' ∧ digitChar d ≠ 'n' ∧ digitChar d ≠ '-' ∧
    (digitChar d).isDigit = true ∧ isJsonWs (digitChar d) = false ∧ digitChar d ≠ ']' := by
  interval_cases d <;> decide

/-- Every serialization starts with a non-whitespace character that is not a
closing bracket. -/
theorem dumps_head_ok (v : Json) :
    ∃ c t, dumpsL v = c :: t ∧ isJsonWs c = false ∧ c ≠ ']' := by
  cases v with
  | str s => exact ⟨'"', escapeL s.data ++ ['"'], rfl, by decide, by decide⟩
  | int n =>
    by_cases hn : n < 0
    · refine ⟨'-', natDigits (-n).toNat, ?_, by decide, by decide⟩
      show dumpIntL n = _
      simp [dumpIntL, hn]
    · obtain ⟨d, ds, hnd, hd10⟩ := natDigits_head n.toNat
      obtain ⟨_, _, _, _, _, _, _, _, hw, hne⟩ := digitChar_not_special hd10
      refine ⟨digitChar d, ds, ?_, hw, hne⟩
      show dumpIntL n = _
      simp [dumpIntL, hn, hnd]
  | bool b =>
    cases b with
    | false => exact ⟨'f', ['a', 'l', 's', 'e'], rfl, by decide, by decide⟩
    | true => exact ⟨'t', ['r', 'u', 'e'], rfl, by decide, by decide⟩
  | null => exact ⟨'n', ['u', 'l', 'l'], rfl, by decide, by decide⟩
  | arr es => exact ⟨'[', dumpElemsL es ++ [']'], rfl, by decide, by decide⟩
  | obj fs => exact ⟨'\x7b', dumpFieldsL fs ++ ['\x7d'], rfl, by decide, by decide⟩

/-- Main round-trip lemma: with enough fuel, parsing a serialized JSON value
consumes exactly the serialization and returns the value, for any following
input that starts with a legitimate delimiter. -/
theorem parse_dumps (fuel : Nat) :
    (∀ v rest, sizeJ v ≤ fuel → delimOk rest →
      parseVal fuel (dumpsL v ++ rest) = some (v, rest)) ∧
    (∀ fs rest, 1 + sizeFields fs ≤ fuel →
      parseFields fuel (dumpFieldsL fs ++ '\x7d' :: rest) = some (fs, rest)) ∧
    (∀ es rest, 1 + sizeElems es ≤ fuel →
      parseElems fuel (dumpElemsL es ++ ']' :: rest) = some (es, rest)) := by
  induction fuel with
  | zero =>
    refine ⟨?_, ?_, ?_⟩
    · intro v rest hs _
      have := sizeJ_pos v
      omega
    · intro fs rest hs
      omega
    · intro es rest hs
      omega
  | succ f ih =>
    obtain ⟨ihV, ihF, ihE⟩ := ih
    refine ⟨?_, ?_, ?_⟩
    · intro v rest hs hd
      cases v with
      | str s =>
        show parseVal (f + 1) (('"' :: (escapeL s.data ++ ['"'])) ++ rest) = _
        unfold parseVal
        rw [show ('"' :: (escapeL s.data ++ ['"'])) ++ rest
            = '"' :: (escapeL s.data ++ '"' :: rest) by simp]
        rw [skipWs_cons_of_not (by decide)]
        simp only [reduceIte, reduceCtorEq]
        rw [parseStrBody_escape]
        simp [string_mk_data]
      | int n =>
        by_cases hn : n < 0
        · show parseVal (f + 1) (dumpIntL n ++ rest) = _
          rw [show dumpIntL n = '-' :: natDigits (-n).toNat by simp [dumpIntL, hn]]
          unfold parseVal
          rw [show ('-' :: natDigits (-n).toNat) ++ rest
              = '-' :: (natDigits (-n).toNat ++ rest) by simp]
          rw [skipWs_cons_of_not (by decide)]
          simp only [reduceIte, reduceCtorEq]
          rw [parseNum_natDigits _ rest (delimOk_head_not_digit hd)]
          have hcast : (((-n).toNat : Int)) = -n := Int.toNat_of_nonneg (by omega)
          simp [hcast]
        · show parseVal (f + 1) (dumpIntL n ++ rest) = _
          rw [show dumpIntL n = natDigits n.toNat by simp [dumpIntL, hn]]
          obtain ⟨d, ds, hnd, hd10⟩ := natDigits_head n.toNat
          obtain ⟨c1, c2, c3, c4, c5, c6, c7, c8, c9, c10⟩ := digitChar_not_special hd10
          unfold parseVal
          rw [hnd]
          rw [show (digitChar d :: ds) ++ rest = digitChar d :: (ds ++ rest) by simp]
          rw [skipWs_cons_of_not c9]
          dsimp only []
          rw [if_neg c1, if_neg c2, if_neg c3, if_neg c4, if_neg c5, if_neg c6, if_neg c7,
            if_pos c8]
          rw [show digitChar d :: (ds ++ rest) = natDigits n.toNat ++ rest by rw [hnd]; simp]
          rw [parseNum_natDigits _ rest (delimOk_head_not_digit hd)]
          have hcast : ((n.toNat : Nat) : Int) = n := Int.toNat_of_nonneg (by omega)
          simp [hcast]
      | bool b =>
        cases b with
        | true =>
          show parseVal (f + 1) ((['t', 'r', 'u', 'e'] : List Char) ++ rest) = _
          unfold parseVal
          rw [show (['t', 'r', 'u', 'e'] : List Char) ++ rest
              = 't' :: 'r' :: 'u' :: 'e' :: rest by simp]
          rw [skipWs_cons_of_not (by decide)]
          simp only [reduceIte, reduceCtorEq]
          rw [if_neg (by decide), if_neg (by decide), if_neg (by decide)]
        | false =>
          show parseVal (f + 1) ((['f', 'a', 'l', 's', 'e'] : List Char) ++ rest) = _
          unfold parseVal
          rw [show (['f', 'a', 'l', 's', 'e'] : List Char) ++ rest
              = 'f' :: 'a' :: 'l' :: 's' :: 'e' :: rest by simp]
          rw [skipWs_cons_of_not (by decide)]
          simp only [reduceIte, reduceCtorEq]
          rw [if_neg (by decide), if_neg (by decide), if_neg (by decide), if_neg (by decide)]
      | null =>
        show parseVal (f + 1) ((['n', 'u', 'l', 'l'] : List Char) ++ rest) = _
        unfold parseVal
        rw [show (['n', 'u', 'l', 'l'] : List Char) ++ rest
            = 'n' :: 'u' :: 'l' :: 'l' :: rest by simp]
        rw [skipWs_cons_of_not (by decide)]
        simp only [reduceIte, reduceCtorEq]
        rw [if_neg (by decide), if_neg (by decide), if_neg (by decide), if_neg (by decide),
          if_neg (by decide)]
      | arr es =>
        show parseVal (f + 1) (('[' :: (dumpElemsL es ++ [']'])) ++ rest) = _
        unfold parseVal
        rw [show ('[' :: (dumpElemsL es ++ [']'])) ++ rest
            = '[' :: (dumpElemsL es ++ ']' :: rest) by simp]
        rw [skipWs_cons_of_not (by decide)]
        simp only [reduceIte, reduceCtorEq]
        have hsz : 1 + sizeElems es ≤ f := by
          have h1 : sizeJ (Json.arr es) = 2 + sizeElems es := rfl
          omega
        rw [ihE es rest hsz]
        simp
      | obj fs =>
        show parseVal (f + 1) (('\x7b' :: (dumpFieldsL fs ++ ['\x7d'])) ++ rest) = _
        unfold parseVal
        rw [show ('\x7b' :: (dumpFieldsL fs ++ ['\x7d'])) ++ rest
            = '\x7b' :: (dumpFieldsL fs ++ '\x7d' :: rest) by simp]
        rw [skipWs_cons_of_not (by decide)]
        simp only [reduceIte, reduceCtorEq]
        have hsz : 1 + sizeFields fs ≤ f := by
          have h1 : sizeJ (Json.obj fs) = 2 + sizeFields fs := rfl
          omega
        rw [ihF fs rest hsz]
        simp
    · intro fs rest hs
      cases fs with
      | nil =>
        show parseFields (f + 1) (([] : List Char) ++ '\x7d' :: rest) = _
        unfold parseFields
        rw [List.nil_append]
        rw [skipWs_cons_of_not (by decide)]
        simp only [reduceIte, reduceCtorEq]
      | cons kv r =>
        obtain ⟨k, v⟩ := kv
        show parseFields (f + 1)
            ((('"' :: (escapeL k.data ++ ['"'])) ++ ':' :: ' ' :: (dumpsL v ++ dumpFieldsTail r))
              ++ '\x7d' :: rest) = _
        unfold parseFields
        rw [show (('"' :: (escapeL k.data ++ ['"'])) ++ ':' :: ' ' ::
              (dumpsL v ++ dumpFieldsTail r)) ++ '\x7d' :: rest
            = '"' :: (escapeL k.data ++ '"' ::
              (':' :: ' ' :: (dumpsL v ++ (dumpFieldsTail r ++ '\x7d' :: rest)))) by simp]
        rw [skipWs_cons_of_not (by decide)]
        simp only [reduceIte, reduceCtorEq]
        rw [parseStrBody_escape]
        simp only []
        rw [skipWs_cons_of_not (by decide)]
        simp only [reduceIte, reduceCtorEq]
        rw [parseVal_ws f (by decide)]
        have hsf : sizeFields ((k, v) :: r) = 1 + sizeJ v + sizeFields r := rfl
        have hsv : sizeJ v ≤ f := by omega
        have hdX : delimOk (dumpFieldsTail r ++ '\x7d' :: rest) := by
          cases r with
          | nil => exact Or.inr (Or.inl rfl)
          | cons kv2 r2 =>
            obtain ⟨k2, v2⟩ := kv2
            exact Or.inl rfl
        rw [ihV v _ hsv hdX]
        cases r with
        | nil =>
          rw [show dumpFieldsTail ([] : List (String × Json)) ++ '\x7d' :: rest
              = '\x7d' :: rest by simp [dumpFieldsTail]]
          rw [if_neg (by decide)]
          dsimp only []
          rw [skipWs_cons_of_not (by decide)]
          simp [string_mk_data, reduceIte]
        | cons kv2 r2 =>
          obtain ⟨k2, v2⟩ := kv2
          rw [show dumpFieldsTail ((k2, v2) :: r2) ++ '\x7d' :: rest
              = ',' :: ' ' :: (dumpFieldsL ((k2, v2) :: r2) ++ '\x7d' :: rest) by
            simp [dumpFieldsTail, dumpFieldsL]]
          rw [if_neg (by decide)]
          try dsimp only []
          rw [skipWs_cons_of_not (by decide)]
          have hvp : 1 ≤ sizeJ v := sizeJ_pos v
          show (match parseFields f (' ' :: (dumpFieldsL ((k2, v2) :: r2) ++ '\x7d' :: rest)) with
            | some (fs, r5) => some ((String.mk k.data, v) :: fs, r5)
            | none => none) = some ((k, v) :: (k2, v2) :: r2, rest)
          rw [parseFields_ws f (by decide)]
          rw [ihF ((k2, v2) :: r2) rest (by omega)]
    · intro es rest hs
      cases es with
      | nil =>
        show parseElems (f + 1) (([] : List Char) ++ ']' :: rest) = _
        unfold parseElems
        rw [List.nil_append]
        rw [skipWs_cons_of_not (by decide)]
        simp only [reduceIte, reduceCtorEq]
      | cons e r =>
        show parseElems (f + 1) ((dumpsL e ++ dumpElemsTail r) ++ ']' :: rest) = _
        unfold parseElems
        obtain ⟨c, t, hc, hcw, hcne⟩ := dumps_head_ok e
        rw [show (dumpsL e ++ dumpElemsTail r) ++ ']' :: rest
            = c :: (t ++ (dumpElemsTail r ++ ']' :: rest)) by rw [hc]; simp]
        rw [skipWs_cons_of_not hcw]
        dsimp only []
        rw [if_neg hcne]
        rw [show c :: (t ++ (dumpElemsTail r ++ ']' :: rest))
            = dumpsL e ++ (dumpElemsTail r ++ ']' :: rest) by rw [hc]; simp]
        have hse : sizeElems (e :: r) = 1 + sizeJ e + sizeElems r := rfl
        have hsv : sizeJ e ≤ f := by omega
        have hdX : delimOk (dumpElemsTail r ++ ']' :: rest) := by
          cases r with
          | nil => exact Or.inr (Or.inr rfl)
          | cons e2 r2 => exact Or.inl rfl
        rw [ihV e _ hsv hdX]
        cases r with
        | nil =>
          rw [show dumpElemsTail ([] : List Json) ++ ']' :: rest = ']' :: rest by
            simp [dumpElemsTail]]
          try dsimp only []
          rw [skipWs_cons_of_not (by decide)]
          rfl
        | cons e2 r2 =>
          rw [show dumpElemsTail (e2 :: r2) ++ ']' :: rest
              = ',' :: ' ' :: (dumpElemsL (e2 :: r2) ++ ']' :: rest) by
            simp [dumpElemsTail, dumpElemsL]]
          try dsimp only []
          rw [skipWs_cons_of_not (by decide)]
          have hvp : 1 ≤ sizeJ e := sizeJ_pos e
          show (match parseElems f (' ' :: (dumpElemsL (e2 :: r2) ++ ']' :: rest)) with
            | some (es, r3) => some (e :: es, r3)
            | none => none) = some (e :: e2 :: r2, rest)
          rw [parseElems_ws f (by decide)]
          rw [ihE (e2 :: r2) rest (by omega)]

theorem dumpFieldsTail_eq (kv : String × Json) (r : List (String × Json)) :
    dumpFieldsTail (kv :: r) = ',' :: ' ' :: dumpFieldsL (kv :: r) := by
  obtain ⟨k, v⟩ := kv
  rfl

theorem dumpElemsTail_eq (e : Json) (r : List Json) :
    dumpElemsTail (e :: r) = ',' :: ' ' :: dumpElemsL (e :: r) := rfl

theorem size_le_length_aux (n : Nat) :
    (∀ v, sizeJ v ≤ n → sizeJ v + 1 ≤ 2 * (dumpsL v).length) ∧
    (∀ fs, sizeFields fs ≤ n → sizeFields fs ≤ 2 * (dumpFieldsL fs).length) ∧
    (∀ es, sizeElems es ≤ n → sizeElems es ≤ 2 * (dumpElemsL es).length) := by
  induction n with
  | zero =>
    refine ⟨?_, ?_, ?_⟩
    · intro v h
      have := sizeJ_pos v
      omega
    · intro fs h
      cases fs with
      | nil => simp [sizeFields]
      | cons kv r =>
        obtain ⟨k, v⟩ := kv
        have h1 : sizeFields ((k, v) :: r) = 1 + sizeJ v + sizeFields r := rfl
        have := sizeJ_pos v
        omega
    · intro es h
      cases es with
      | nil => simp [sizeElems]
      | cons e r =>
        have h1 : sizeElems (e :: r) = 1 + sizeJ e + sizeElems r := rfl
        have := sizeJ_pos e
        omega
  | succ n ih =>
    obtain ⟨ihV, ihF, ihE⟩ := ih
    refine ⟨?_, ?_, ?_⟩
    · intro v hv
      cases v with
      | str s =>
        show (1 : Nat) + 1 ≤ 2 * ('"' :: (escapeL s.data ++ ['"'])).length
        simp
      | int n0 =>
        show (1 : Nat) + 1 ≤ 2 * (dumpIntL n0).length
        unfold dumpIntL
        split
        · simp
        · have := natDigits_ne_nil n0.toNat
          have := List.length_pos.mpr this
          omega
      | bool b =>
        cases b with
        | true =>
          show (1 : Nat) + 1 ≤ 2 * (['t', 'r', 'u', 'e'] : List Char).length
          simp
        | false =>
          show (1 : Nat) + 1 ≤ 2 * (['f', 'a', 'l', 's', 'e'] : List Char).length
          simp
      | null =>
        show (1 : Nat) + 1 ≤ 2 * (['n', 'u', 'l', 'l'] : List Char).length
        simp
      | arr es =>
        show 2 + sizeElems es + 1 ≤ 2 * ('[' :: (dumpElemsL es ++ [']'])).length
        have h1 : sizeJ (Json.arr es) = 2 + sizeElems es := rfl
        have h2 : sizeElems es ≤ 2 * (dumpElemsL es).length := ihE es (by omega)
        simp
        omega
      | obj fs =>
        show 2 + sizeFields fs + 1 ≤ 2 * ('\x7b' :: (dumpFieldsL fs ++ ['\x7d'])).length
        have h1 : sizeJ (Json.obj fs) = 2 + sizeFields fs := rfl
        have h2 : sizeFields fs ≤ 2 * (dumpFieldsL fs).length := ihF fs (by omega)
        simp
        omega
    · intro fs hf
      cases fs with
      | nil => simp [sizeFields]
      | cons kv r =>
        obtain ⟨k, v⟩ := kv
        have h1 : sizeFields ((k, v) :: r) = 1 + sizeJ v + sizeFields r := rfl
        have hvp : 1 ≤ sizeJ v := sizeJ_pos v
        have h2 : sizeJ v + 1 ≤ 2 * (dumpsL v).length := ihV v (by omega)
        have h3 : sizeFields r ≤ 2 * (dumpFieldsL r).length := ihF r (by omega)
        have h4 : (dumpFieldsL r).length ≤ (dumpFieldsTail r).length := by
          cases r with
          | nil => simp [dumpFieldsL, dumpFieldsTail]
          | cons kv2 r2 =>
            rw [dumpFieldsTail_eq]
            simp
            omega
        show 1 + sizeJ v + sizeFields r ≤
          2 * (dumpStrL k ++ ':' :: ' ' :: (dumpsL v ++ dumpFieldsTail r)).length
        simp [dumpStrL]
        omega
    · intro es he
      cases es with
      | nil => simp [sizeElems]
      | cons e r =>
        have h1 : sizeElems (e :: r) = 1 + sizeJ e + sizeElems r := rfl
        have hvp : 1 ≤ sizeJ e := sizeJ_pos e
        have h2 : sizeJ e + 1 ≤ 2 * (dumpsL e).length := ihV e (by omega)
        have h3 : sizeElems r ≤ 2 * (dumpElemsL r).length := ihE r (by omega)
        have h4 : (dumpElemsL r).length ≤ (dumpElemsTail r).length := by
          cases r with
          | nil => simp [dumpElemsL, dumpElemsTail]
          | cons e2 r2 =>
            rw [dumpElemsTail_eq]
            simp
            omega
        show 1 + sizeJ e + sizeElems r ≤ 2 * (dumpsL e ++ dumpElemsTail r).length
        simp
        omega

theorem sizeJ_le_length (v : Json) : sizeJ v + 1 ≤ 2 * (dumpsL v).length :=
  (size_le_length_aux (sizeJ v)).1 v (Nat.le_refl _)

/-- Parsing a serialized value: `jsonLoadsL` decodes exactly what `dumpsL` produced. -/
theorem jsonLoadsL_dumpsL (v : Json) : jsonLoadsL (dumpsL v) = some v := by
  unfold jsonLoadsL
  have h := (parse_dumps (2 * (dumpsL v).length + 1)).1 v []
    (by have := sizeJ_le_length v; omega) trivial
  rw [List.append_nil] at h
  rw [h]
  simp [skipWs]

theorem hexDigitChar_ne_newline {x : Nat} : hexDigitChar x ≠ '\n' := by
  unfold hexDigitChar
  split <;> decide

theorem escapeChar_no_newline (c : Char) : '\n' ∉ escapeChar c := by
  unfold escapeChar
  split_ifs with h1 h2 h3 h4 h5 h6 h7 h8
  · decide
  · decide
  · decide
  · decide
  · decide
  · decide
  · decide
  · intro hm
    have ha := hexDigitChar_ne_newline (x := c.toNat / 16)
    have hb := hexDigitChar_ne_newline (x := c.toNat % 16)
    simp at hm
    rcases hm with hm | hm
    · exact ha hm.symm
    · exact hb hm.symm
  · intro hm
    simp at hm
    exact h5 hm.symm

theorem escapeL_no_newline (s : List Char) : '\n' ∉ escapeL s := by
  induction s with
  | nil => simp [escapeL]
  | cons c t ih =>
    show '\n' ∉ escapeChar c ++ escapeL t
    rw [List.mem_append]
    rintro (hm | hm)
    · exact escapeChar_no_newline c hm
    · exact ih hm

theorem natDigits_no_newline (n : Nat) : '\n' ∉ natDigits n := by
  intro hm
  have := natDigits_all_digits n _ hm
  simp [Char.isDigit] at this

theorem dumps_no_newline_aux (n : Nat) :
    (∀ v, sizeJ v ≤ n → '\n' ∉ dumpsL v) ∧
    (∀ fs, sizeFields fs ≤ n → '\n' ∉ dumpFieldsL fs) ∧
    (∀ es, sizeElems es ≤ n → '\n' ∉ dumpElemsL es) := by
  induction n with
  | zero =>
    refine ⟨?_, ?_, ?_⟩
    · intro v h
      have := sizeJ_pos v
      omega
    · intro fs h
      cases fs with
      | nil => simp [dumpFieldsL]
      | cons kv r =>
        obtain ⟨k, v⟩ := kv
        have h1 : sizeFields ((k, v) :: r) = 1 + sizeJ v + sizeFields r := rfl
        omega
    · intro es h
      cases es with
      | nil => simp [dumpElemsL]
      | cons e r =>
        have h1 : sizeElems (e :: r) = 1 + sizeJ e + sizeElems r := rfl
        omega
  | succ n ih =>
    obtain ⟨ihV, ihF, ihE⟩ := ih
    refine ⟨?_, ?_, ?_⟩
    · intro v hv
      cases v with
      | str s =>
        show '\n' ∉ '"' :: (escapeL s.data ++ ['"'])
        simp
        exact fun h => absurd h (escapeL_no_newline s.data)
      | int n0 =>
        show '\n' ∉ dumpIntL n0
        unfold dumpIntL
        split
        · intro hm
          simp at hm
          exact natDigits_no_newline _ hm
        · exact natDigits_no_newline _
      | bool b =>
        cases b with
        | true => decide
        | false => decide
      | null => decide
      | arr es =>
        have h1 : sizeJ (Json.arr es) = 2 + sizeElems es := rfl
        have h2 := ihE es (by omega)
        show '\n' ∉ '[' :: (dumpElemsL es ++ [']'])
        simp
        exact fun h => absurd h h2
      | obj fs =>
        have h1 : sizeJ (Json.obj fs) = 2 + sizeFields fs := rfl
        have h2 := ihF fs (by omega)
        show '\n' ∉ '\x7b' :: (dumpFieldsL fs ++ ['\x7d'])
        simp
        exact fun h => absurd h h2
    · intro fs hf
      cases fs with
      | nil => simp [dumpFieldsL]
      | cons kv r =>
        obtain ⟨k, v⟩ := kv
        have h1 : sizeFields ((k, v) :: r) = 1 + sizeJ v + sizeFields r := rfl
        have hvp : 1 ≤ sizeJ v := sizeJ_pos v
        have h2 := ihV v (by omega)
        have h3 := ihF r (by omega)
        show '\n' ∉ dumpStrL k ++ ':' :: ' ' :: (dumpsL v ++ dumpFieldsTail r)
        have h4 : '\n' ∉ dumpFieldsTail r := by
          cases r with
          | nil => simp [dumpFieldsTail]
          | cons kv2 r2 =>
            rw [dumpFieldsTail_eq]
            intro hm
            rcases List.mem_cons.mp hm with h | h
            · exact absurd h (by decide)
            · rcases List.mem_cons.mp h with h | h
              · exact absurd h (by decide)
              · exact h3 h
        rw [List.mem_append]
        rintro (hm | hm)
        · rcases List.mem_cons.mp hm with h | h
          · exact absurd h (by decide)
          · rcases List.mem_append.mp h with h | h
            · exact escapeL_no_newline k.data h
            · rcases List.mem_cons.mp h with h | h
              · exact absurd h (by decide)
              · exact absurd h (by simp)
        · rcases List.mem_cons.mp hm with h | h
          · exact absurd h (by decide)
          · rcases List.mem_cons.mp h with h | h
            · exact absurd h (by decide)
            · rcases List.mem_append.mp h with h | h
              · exact h2 h
              · exact h4 h
    · intro es he
      cases es with
      | nil => simp [dumpElemsL]
      | cons e r =>
        have h1 : sizeElems (e :: r) = 1 + sizeJ e + sizeElems r := rfl
        have hvp : 1 ≤ sizeJ e := sizeJ_pos e
        have h2 := ihV e (by omega)
        have h3 := ihE r (by omega)
        show '\n' ∉ dumpsL e ++ dumpElemsTail r
        have h4 : '\n' ∉ dumpElemsTail r := by
          cases r with
          | nil => simp [dumpElemsTail]
          | cons e2 r2 =>
            rw [dumpElemsTail_eq]
            intro hm
            rcases List.mem_cons.mp hm with h | h
            · exact absurd h (by decide)
            · rcases List.mem_cons.mp h with h | h
              · exact absurd h (by decide)
              · exact h3 h
        rw [List.mem_append]
        rintro (hm | hm)
        · exact h2 hm
        · exact h4 hm

theorem dumpsL_no_newline (v : Json) : '\n' ∉ dumpsL v :=
  (dumps_no_newline_aux (sizeJ v)).1 v (Nat.le_refl _)

theorem stripL_cons_ws {c : Char} {l : List Char} (h : isPyWs c = true) :
    stripL (c :: l) = stripL l := by
  simp [stripL, List.dropWhile_cons, h]

theorem stripL_eq_self {l : List Char}
    (h1 : ∀ c, l.head? = some c → isPyWs c = false)
    (h2 : ∀ c, l.getLast? = some c → isPyWs c = false) :
    stripL l = l := by
  cases l with
  | nil => rfl
  | cons a t =>
    have ha : isPyWs a = false := h1 a rfl
    unfold stripL
    rw [List.dropWhile_cons]
    simp only [ha, Bool.false_eq_true, if_false]
    cases hrev : (a :: t).reverse with
    | nil => simp at hrev
    | cons b rb =>
      have hb : (a :: t).getLast? = some b := by
        rw [← List.head?_reverse, hrev]
        rfl
      have hbw : isPyWs b = false := h2 b hb
      rw [List.dropWhile_cons]
      simp only [hbw, Bool.false_eq_true, if_false]
      rw [← hrev, List.reverse_reverse]

theorem splitlinesL_append {a b : List Char} (h : '\n' ∉ a) :
    splitlinesL (a ++ '\n' :: b) = a :: splitlinesL b := by
  induction a with
  | nil =>
    show splitlinesL ('\n' :: b) = [] :: splitlinesL b
    unfold splitlinesL
    simp
    cases b <;> rfl
  | cons c t ih =>
    have hc : ¬c = '\n' := by
      intro e
      exact h (by simp [e])
    have ih2 := ih (fun m => h (by simp [m]))
    show splitlinesL (c :: (t ++ '\n' :: b)) = (c :: t) :: splitlinesL b
    unfold splitlinesL
    simp only [hc, if_false]
    rw [ih2]
    cases b <;> rfl

theorem startsWithL_append (p x : List Char) : startsWithL p (p ++ x) = true := by
  induction p with
  | nil => rfl
  | cons c t ih => simp [startsWithL, ih]

/- ===================================================================
   Claim theorems
   =================================================================== -/

/-- C3: for every (body, headers) pair, the InvokeContext built by the
/invoke handler has run_id equal to the X-Run-ID header when present and to
the body's run_id when absent, and the same precedence holds for session_id
with the X-Session-ID header. -/
theorem C3_header_precedence (body : InvokeRequest) (h : InvokeHeaders) :
    (∀ r, h.x_run_id = some r → (invoke_handler_ctx body h).run_id = r) ∧
    (h.x_run_id = none → (invoke_handler_ctx body h).run_id = body.run_id) ∧
    (∀ s, h.x_session_id = some s → (invoke_handler_ctx body h).session_id = s) ∧
    (h.x_session_id = none → (invoke_handler_ctx body h).session_id = body.session_id) := by
  unfold invoke_handler_ctx InvokeContext.from_request
  refine ⟨?_, ?_, ?_, ?_⟩
  · intro r hr
    rw [hr]
    simp
    split_ifs <;> simp_all
  · intro hr
    rw [hr]
    simp
    split_ifs <;> simp_all
  · intro s hs
    rw [hs]
    simp
    split_ifs <;> simp_all
  · intro hs
    rw [hs]
    simp
    split_ifs <;> simp_all

/-- Witness for C3 at a concrete request with an X-Run-ID override present
and the X-Session-ID header absent. -/
theorem C3_header_precedence_witness :
    (invoke_handler_ctx
      { agent_id := "demo", session_id := "s1", run_id := "r1",
        input_message := { role := "user", content := "hello" },
        messages := none, context := none }
      { traceparent := none, x_platform_base_url := none,
        x_session_id := none, x_run_id := some "r2" }).run_id = "r2" ∧
    (invoke_handler_ctx
      { agent_id := "demo", session_id := "s1", run_id := "r1",
        input_message := { role := "user", content := "hello" },
        messages := none, context := none }
      { traceparent := none, x_platform_base_url := none,
        x_session_id := none, x_run_id := some "r2" }).session_id = "s1" := by
  have h := C3_header_precedence
    { agent_id := "demo", session_id := "s1", run_id := "r1",
      input_message := { role := "user", content := "hello" },
      messages := none, context := none }
    { traceparent := none, x_platform_base_url := none,
      x_session_id := none, x_run_id := some "r2" }
  exact ⟨h.1 "r2" rfl, h.2.2.2 rfl⟩

/-- C6: a request with messages = None and context = None yields a context
with messages = [] and context = {}; and for every request, traceparent and
platform_base_url in the built context come from the transport headers alone
(unset exactly when the header is absent), never from the body. -/
theorem C6_default_normalization (body : InvokeRequest) (h : InvokeHeaders) :
    (body.messages = none → body.context = none →
      (invoke_handler_ctx body h).messages = [] ∧ (invoke_handler_ctx body h).context = []) ∧
    (invoke_handler_ctx body h).traceparent = h.traceparent ∧
    (invoke_handler_ctx body h).platform_base_url = h.x_platform_base_url := by
  unfold invoke_handler_ctx InvokeContext.from_request
  refine ⟨?_, ?_, ?_⟩
  · intro hm hc
    constructor <;> (simp; split_ifs <;> simp_all [pyOrList])
  · simp
  · simp

/-- Witness for C6 at a concrete request with absent messages/context and a
traceparent header present. -/
theorem C6_default_normalization_witness :
    (invoke_handler_ctx
      { agent_id := "demo", session_id := "s1", run_id := "r1",
        input_message := { role := "user", content := "hello" },
        messages := none, context := none }
      { traceparent := some "00-abc-def-01", x_platform_base_url := none,
        x_session_id := none, x_run_id := none }).messages = [] ∧
    (invoke_handler_ctx
      { agent_id := "demo", session_id := "s1", run_id := "r1",
        input_message := { role := "user", content := "hello" },
        messages := none, context := none }
      { traceparent := some "00-abc-def-01", x_platform_base_url := none,
        x_session_id := none, x_run_id := none }).context = [] ∧
    (invoke_handler_ctx
      { agent_id := "demo", session_id := "s1", run_id := "r1",
        input_message := { role := "user", content := "hello" },
        messages := none, context := none }
      { traceparent := some "00-abc-def-01", x_platform_base_url := none,
        x_session_id := none, x_run_id := none }).traceparent = some "00-abc-def-01" := by
  have h := C6_default_normalization
    { agent_id := "demo", session_id := "s1", run_id := "r1",
      input_message := { role := "user", content := "hello" },
      messages := none, context := none }
    { traceparent := some "00-abc-def-01", x_platform_base_url := none,
      x_session_id := none, x_run_id := none }
  exact ⟨(h.1 rfl rfl).1, (h.1 rfl rfl).2, h.2.1⟩

/-- C7: invoke_and_wait performs exactly one invoke; exactly one wait if and
only if the invoke result has status pending; otherwise it returns the
invoke result unchanged; invoke is never repeated and wait never happens
twice, regardless of what wait returns. -/
theorem C7_invoke_and_wait (tInvoke tWait : Except ClientError HttpResponse) :
    ((ToolClient.invoke_and_wait tInvoke tWait).2.count ToolClient.Call.invokeCall = 1) ∧
    ((ToolClient.invoke_and_wait tInvoke tWait).2.count ToolClient.Call.waitCall =
      match ToolClient.invoke tInvoke with
      | .ok r => if r.pending then 1 else 0
      | .error _ => 0) ∧
    (∀ r, ToolClient.invoke tInvoke = .ok r → r.pending = false →
      ToolClient.invoke_and_wait tInvoke tWait = (.ok r, [.invokeCall])) ∧
    (∀ r, ToolClient.invoke tInvoke = .ok r → r.pending = true →
      ToolClient.invoke_and_wait tInvoke tWait
        = (ToolClient.wait tWait, [.invokeCall, .waitCall])) ∧
    (∀ e, ToolClient.invoke tInvoke = .error e →
      ToolClient.invoke_and_wait tInvoke tWait = (.error e, [.invokeCall])) := by
  unfold ToolClient.invoke_and_wait
  refine ⟨?_, ?_, ?_, ?_, ?_⟩
  · cases hi : ToolClient.invoke tInvoke with
    | error e => simp
    | ok r =>
      try dsimp only []
      split_ifs <;> simp [List.count_cons]
  · cases hi : ToolClient.invoke tInvoke with
    | error e => simp
    | ok r =>
      try dsimp only []
      split_ifs <;> simp_all [List.count_cons]
  · intro r hr hp
    rw [hr]
    simp [hp]
  · intro r hr hp
    rw [hr]
    simp [hp]
  · intro e he
    rw [he]

/-- Witness for C7: a pending invoke response followed by a succeeded wait
response produces exactly [invoke, wait]; a terminal invoke response is
returned unchanged. -/
theorem C7_invoke_and_wait_witness :
    ToolClient.invoke_and_wait (.ok ⟨200, ⟨"t1", "pending", none, none⟩⟩)
        (.ok ⟨200, ⟨"t1", "succeeded", none, none⟩⟩)
      = (.ok ⟨"t1", "succeeded", none, none⟩,
         [ToolClient.Call.invokeCall, ToolClient.Call.waitCall]) ∧
    ToolClient.invoke_and_wait (.ok ⟨200, ⟨"t2", "succeeded", none, none⟩⟩)
        (.error .connect)
      = (.ok ⟨"t2", "succeeded", none, none⟩, [ToolClient.Call.invokeCall]) := by
  constructor
  · exact (C7_invoke_and_wait _ _).2.2.2.1 ⟨"t1", "pending", none, none⟩ rfl rfl
  · exact (C7_invoke_and_wait _ _).2.2.1 ⟨"t2", "succeeded", none, none⟩ rfl rfl

theorem relayAll_id (l : List String) : relayAll l = l := by
  induction l with
  | nil => rfl
  | cons e r ih => simp [relayAll, ih]

/-- C9: for every handler and context, FunctionAgent.invoke — both on a
directly constructed FunctionAgent and on the agent returned by the
create_agent decorator — yields exactly the handler's event sequence,
element for element: the adapter adds, drops and reorders nothing. -/
theorem C9_function_agent_adapter (fa : FunctionAgent) (ctx : InvokeContext)
    (agent_id name version : String) (capabilities : Option (List String))
    (handler : InvokeContext → List String) :
    fa.invoke ctx = fa.handler ctx ∧
    (create_agent agent_id name version capabilities handler).invoke ctx = handler ctx ∧
    (create_agent agent_id name version capabilities handler).handler = handler := by
  refine ⟨?_, ?_, rfl⟩
  · exact relayAll_id _
  · exact relayAll_id _

/-- C5: chat_completions_stream yields only the JSON-decoded payloads of
`data: `-prefixed lines, ignores all other lines, stops immediately without
emitting anything at the literal `[DONE]` sentinel; and on the concrete body
`data: {"a":1}\n\ndata: [DONE]\n\ndata: {"a":2}\n\n` it yields exactly one
object, `{"a":1}`, never `{"a":2}`. -/
theorem C5_chat_completions_stream :
    chat_completions_stream_body
        "data: \x7b\"a\":1\x7d\n\ndata: [DONE]\n\ndata: \x7b\"a\":2\x7d\n\n"
      = ([Json.obj [("a", Json.int 1)]], StreamEnd.doneSentinel) ∧
    (∀ rest, chat_completions_stream ("data: [DONE]".data :: rest)
      = ([], StreamEnd.doneSentinel)) ∧
    (∀ l rest, startsWithL "data: ".data l = false →
      chat_completions_stream (l :: rest) = chat_completions_stream rest) ∧
    (∀ d v rest, jsonLoadsL d = some v → d ≠ "[DONE]".data →
      chat_completions_stream (("data: ".data ++ d) :: rest)
        = (v :: (chat_completions_stream rest).1, (chat_completions_stream rest).2)) := by
  refine ⟨rfl, fun rest => rfl, ?_, ?_⟩
  · intro l rest h
    conv_lhs => unfold chat_completions_stream
    simp [h]
  · intro d v rest hv hd
    conv_lhs => unfold chat_completions_stream
    rw [show startsWithL "data: ".data ("data: ".data ++ d) = true from startsWithL_append _ _]
    simp only [if_true]
    rw [show ("data: ".data ++ d).drop 6 = d from rfl]
    rw [if_neg hd, hv]

/-- Witness for C5's conditional conjuncts: a non-data line is skipped and a
decodable data line is yielded, on concrete inputs. -/
theorem C5_chat_completions_stream_witness :
    chat_completions_stream (": keepalive".data :: []) = ([], StreamEnd.exhausted) ∧
    chat_completions_stream (("data: ".data ++ "\x7b\"a\": 1\x7d".data) :: [])
      = ([Json.obj [("a", Json.int 1)]], StreamEnd.exhausted) := by
  constructor
  · rw [(C5_chat_completions_stream).2.2.1 ": keepalive".data [] (by decide)]
    rfl
  · rw [(C5_chat_completions_stream).2.2.2 "\x7b\"a\": 1\x7d".data (Json.obj [("a", Json.int 1)])
      [] (by rw [show "\x7b\"a\": 1\x7d".data = dumpsL (Json.obj [("a", Json.int 1)]) from rfl,
            jsonLoadsL_dumpsL]) (by decide)]
    rfl

theorem relay_blank (et : Option String) (rest : List (List Char)) (l : List Char)
    (h : stripL l = []) :
    AgentClient.invoke et (l :: rest) = AgentClient.invoke et rest := by
  conv_lhs => unfold AgentClient.invoke
  simp [h]

theorem relay_event_line (et : Option String) (rest : List (List Char)) (t : String)
    (hh : ∀ c, t.data.head? = some c → isPyWs c = false)
    (hl : ∀ c, t.data.getLast? = some c → isPyWs c = false)
    (hne : t.data ≠ []) :
    AgentClient.invoke et (("event: " ++ t).data :: rest)
      = AgentClient.invoke (some t) rest := by
  have hevent : ("event: " ++ t).data
      = 'e' :: 'v' :: 'e' :: 'n' :: 't' :: ':' :: ' ' :: t.data := by
    rw [string_data_append]
    rfl
  conv_lhs => unfold AgentClient.invoke
  rw [hevent]
  have hstrip : stripL ('e' :: 'v' :: 'e' :: 'n' :: 't' :: ':' :: ' ' :: t.data)
      = 'e' :: 'v' :: 'e' :: 'n' :: 't' :: ':' :: ' ' :: t.data := by
    apply stripL_eq_self
    · intro c hc
      simp at hc
      subst hc
      decide
    · intro c hc
      rw [show ('e' :: 'v' :: 'e' :: 'n' :: 't' :: ':' :: ' ' :: t.data)
          = ['e', 'v', 'e', 'n', 't', ':', ' '] ++ t.data by simp] at hc
      rw [List.getLast?_append_of_ne_nil _ hne] at hc
      exact hl c hc
  rw [hstrip]
  simp only [List.isEmpty_cons, if_false]
  rw [show startsWithL "event:".data ('e' :: 'v' :: 'e' :: 'n' :: 't' :: ':' :: ' ' :: t.data)
      = true by simp [startsWithL]]
  simp only [if_true]
  rw [show ('e' :: 'v' :: 'e' :: 'n' :: 't' :: ':' :: ' ' :: t.data).drop 6 = ' ' :: t.data
    by simp]
  rw [stripL_cons_ws (by decide)]
  rw [stripL_eq_self hh hl, string_mk_data]
  simp

theorem relay_data_line (et : Option String) (rest : List (List Char)) (d : String) (v : Json)
    (hl : ∀ c, d.data.getLast? = some c → isPyWs c = false)
    (hne : d.data ≠ [])
    (hv : jsonLoadsL (stripL d.data) = some v) :
    AgentClient.invoke et (("data: " ++ d).data :: rest)
      = (et, v) :: AgentClient.invoke et rest := by
  have hdata : ("data: " ++ d).data
      = 'd' :: 'a' :: 't' :: 'a' :: ':' :: ' ' :: d.data := by
    rw [string_data_append]
    rfl
  conv_lhs => unfold AgentClient.invoke
  rw [hdata]
  have hstrip : stripL ('d' :: 'a' :: 't' :: 'a' :: ':' :: ' ' :: d.data)
      = 'd' :: 'a' :: 't' :: 'a' :: ':' :: ' ' :: d.data := by
    apply stripL_eq_self
    · intro c hc
      simp at hc
      subst hc
      decide
    · intro c hc
      rw [show ('d' :: 'a' :: 't' :: 'a' :: ':' :: ' ' :: d.data)
          = ['d', 'a', 't', 'a', ':', ' '] ++ d.data by simp] at hc
      rw [List.getLast?_append_of_ne_nil _ hne] at hc
      exact hl c hc
  rw [hstrip]
  simp only [List.isEmpty_cons, if_false]
  rw [show startsWithL "event:".data ('d' :: 'a' :: 't' :: 'a' :: ':' :: ' ' :: d.data)
      = false by simp [startsWithL]]
  simp only [Bool.false_eq_true, if_false]
  rw [show startsWithL "data:".data ('d' :: 'a' :: 't' :: 'a' :: ':' :: ' ' :: d.data)
      = true by simp [startsWithL]]
  simp only [if_true]
  rw [show ('d' :: 'a' :: 't' :: 'a' :: ':' :: ' ' :: d.data).drop 5 = ' ' :: d.data by simp]
  rw [stripL_cons_ws (by decide)]
  rw [hv]

/-- C8: the agent-to-agent relay parser: an event: line sets the pending
event type for subsequent data: lines; blank (whitespace-only) lines are
skipped and yield nothing; a data: line yields a pair of the pending type
and the JSON decoding of the rest of the line; and a data: line that no
event: line precedes yields a pair whose type is unset (none) rather than an
error. -/
theorem C8_agent_relay (rest : List (List Char)) :
    (∀ et l, stripL l = [] → AgentClient.invoke et (l :: rest) = AgentClient.invoke et rest) ∧
    (∀ et t, (∀ c, t.data.head? = some c → isPyWs c = false) →
      (∀ c, t.data.getLast? = some c → isPyWs c = false) → t.data ≠ [] →
      AgentClient.invoke et (("event: " ++ t).data :: rest)
        = AgentClient.invoke (some t) rest) ∧
    (∀ et d v, (∀ c, d.data.getLast? = some c → isPyWs c = false) → d.data ≠ [] →
      jsonLoadsL (stripL d.data) = some v →
      AgentClient.invoke et (("data: " ++ d).data :: rest)
        = (et, v) :: AgentClient.invoke et rest) ∧
    (∀ d v, (∀ c, d.data.getLast? = some c → isPyWs c = false) → d.data ≠ [] →
      jsonLoadsL (stripL d.data) = some v →
      AgentClient.invoke none (("data: " ++ d).data :: rest)
        = (none, v) :: AgentClient.invoke none rest) :=
  ⟨fun et l h => relay_blank et rest l h,
   fun et t hh hl hne => relay_event_line et rest t hh hl hne,
   fun et d v hl hne hv => relay_data_line et rest d v hl hne hv,
   fun d v hl hne hv => relay_data_line none rest d v hl hne hv⟩

/-- Witness for C8 at concrete lines: an event: line followed by a data:
line yields the typed pair, and a lone data: line yields a pair with an
unset type. -/
theorem C8_agent_relay_witness :
    AgentClient.invoke none
        (("event: " ++ "delta").data :: ("data: " ++ "\x7b\"a\": 1\x7d").data :: [])
      = [(some "delta", Json.obj [("a", Json.int 1)])] ∧
    AgentClient.invoke none (("data: " ++ "\x7b\"a\": 1\x7d").data :: [])
      = [(none, Json.obj [("a", Json.int 1)])] := by
  have hlast : ∀ c, "\x7b\"a\": 1\x7d".data.getLast? = some c → isPyWs c = false := by
    intro c hc
    simp at hc
    subst hc
    decide
  have hload : jsonLoadsL (stripL "\x7b\"a\": 1\x7d".data) = some (Json.obj [("a", Json.int 1)]) := rfl
  constructor
  · rw [(C8_agent_relay (("data: " ++ "\x7b\"a\": 1\x7d").data :: [])).2.1 none "delta"
        (by intro c hc; simp at hc; subst hc; decide)
        (by intro c hc; simp at hc; subst hc; decide)
        (by decide)]
    rw [(C8_agent_relay ([] : List (List Char))).2.2.1 (some "delta")
        "\x7b\"a\": 1\x7d" (Json.obj [("a", Json.int 1)]) hlast (by decide) hload]
    rfl
  · rw [(C8_agent_relay ([] : List (List Char))).2.2.2
        "\x7b\"a\": 1\x7d" (Json.obj [("a", Json.int 1)]) hlast (by decide) hload]
    rfl

/-- C1 (refuting the claim on the code): an InvokeRequest whose
input_message.role is "narrator" passes validation — `Message.role` is a
plain `str` field, so the unrecognized role is accepted verbatim rather than
rejected — and the handler dispatches, producing SSE event strings. -/
theorem C1_narrator_role_accepted :
    parseInvokeRequest narratorBody
      = some { agent_id := "demo", session_id := "s1", run_id := "r1",
               input_message := { role := "narrator", content := "hi" },
               messages := none, context := none } ∧
    invoke_handler echoHandler narratorBody noHeaders
      = .stream [SSEResponse.delta { run_id := some "r1" } "hi",
                 SSEResponse.done { run_id := some "r1" } (some "hi") none] :=
  ⟨rfl, rfl⟩

/-- C2 counterexample: on a concrete 500 response (and on a connection
error), `ToolClient.invoke` raises the HTTP library's status/connection
error, not the SDK's `PlatformError` — the claim's "the PlatformError type"
is false on the code, which never raises `PlatformError`. -/
theorem C2_not_platform_error :
    ToolClient.invoke (.ok ⟨500, ⟨"tc1", "failed", none, none⟩⟩)
      = .error (.httpStatus 500) ∧
    isPlatformError (ToolClient.invoke (.ok ⟨500, ⟨"tc1", "failed", none, none⟩⟩)) = false ∧
    isPlatformError (ToolClient.invoke (.error .connect)) = false :=
  ⟨rfl, rfl, rfl⟩

/-- C2 (amended): every ToolClient operation surfaces a transport failure
(non-2xx response or connection error) as a typed raised error — httpx's
status error carrying the status, or the connection error — and never
returns a partial or fabricated ToolResult. -/
theorem C2_transport_errors_typed (resp : HttpResponse)
    (tW : Except ClientError HttpResponse)
    (h : ¬(200 ≤ resp.status ∧ resp.status < 300)) :
    (ToolClient.invoke (.ok resp) = .error (.httpStatus resp.status)
      ∧ ToolClient.get_status (.ok resp) = .error (.httpStatus resp.status)
      ∧ ToolClient.wait (.ok resp) = .error (.httpStatus resp.status)
      ∧ (ToolClient.invoke_and_wait (.ok resp) tW).1 = .error (.httpStatus resp.status))
    ∧ (ToolClient.invoke (.error .connect) = .error .connect
      ∧ ToolClient.get_status (.error .connect) = .error .connect
      ∧ ToolClient.wait (.error .connect) = .error .connect
      ∧ (ToolClient.invoke_and_wait (.error .connect) tW).1 = .error .connect) := by
  have hr : ToolClient.roundTrip (.ok resp) = .error (.httpStatus resp.status) := by
    show (match raise_for_status resp with
        | Except.error e => Except.error e
        | Except.ok _ =>
          Except.ok (⟨resp.body.tool_call_id, resp.body.status, resp.body.result,
            resp.body.error⟩ : ToolResult))
      = Except.error (ClientError.httpStatus resp.status)
    rw [show raise_for_status resp = .error (.httpStatus resp.status) by
      unfold raise_for_status
      rw [if_neg h]]
  refine ⟨⟨hr, hr, hr, ?_⟩, rfl, rfl, rfl, rfl⟩
  unfold ToolClient.invoke_and_wait ToolClient.invoke
  rw [hr]

/-- Witness for C2's amended theorem at a concrete 500 response. -/
theorem C2_transport_errors_typed_witness :
    ToolClient.invoke (.ok ⟨500, ⟨"tc1", "failed", none, none⟩⟩)
      = .error (.httpStatus 500) ∧
    ToolClient.wait (.ok ⟨500, ⟨"tc1", "failed", none, none⟩⟩)
      = .error (.httpStatus 500) ∧
    (ToolClient.invoke_and_wait (.error .connect) (.ok ⟨200, ⟨"t", "pending", none, none⟩⟩)).1
      = .error .connect := by
  have h := C2_transport_errors_typed ⟨500, ⟨"tc1", "failed", none, none⟩⟩
    (.ok ⟨200, ⟨"t", "pending", none, none⟩⟩) (by decide)
  exact ⟨h.1.1, h.1.2.2.1, h.2.2.2.2⟩

theorem relay_single_event (T : String) (fs : List (String × Json))
    (hh : ∀ c, T.data.head? = some c → isPyWs c = false)
    (hl : ∀ c, T.data.getLast? = some c → isPyWs c = false)
    (hne : T.data ≠ []) (hnl : '\n' ∉ T.data) :
    AgentClient.invoke none
        (splitlinesL (format_sse_event T (.inl (Json.obj fs))).data)
      = [(some T, Json.obj fs)] := by
  have hdat : (format_sse_event T (.inl (Json.obj fs))).data
      = ("event: " ++ T).data ++ '\n' ::
        (("data: " ++ jsonDumps (Json.obj fs)).data ++ '\n' :: ['\n']) := by
    show ("event: " ++ T ++ "\ndata: " ++ jsonDumps (Json.obj fs) ++ "\n\n").data = _
    rw [string_data_append, string_data_append, string_data_append, string_data_append,
      string_data_append]
    rw [show "\ndata: ".data = '\n' :: "data: ".data from rfl,
      show "\n\n".data = '\n' :: ['\n'] from rfl]
    simp
  rw [hdat]
  rw [splitlinesL_append (by
    rw [string_data_append, List.mem_append]
    rintro (hm | hm)
    · exact absurd hm (by decide)
    · exact hnl hm)]
  rw [splitlinesL_append (by
    rw [string_data_append, List.mem_append]
    rintro (hm | hm)
    · exact absurd hm (by decide)
    · exact dumpsL_no_newline (Json.obj fs) hm)]
  rw [show splitlinesL ['\n'] = [[]] from rfl]
  rw [relay_event_line none _ T hh hl hne]
  have hobj : dumpsL (Json.obj fs) = ('\x7b' :: dumpFieldsL fs) ++ ['\x7d'] := by
    show '\x7b' :: (dumpFieldsL fs ++ ['\x7d']) = _
    simp
  rw [relay_data_line (some T) _ (jsonDumps (Json.obj fs)) (Json.obj fs)
    (by
      intro c hc
      rw [show (jsonDumps (Json.obj fs)).data = dumpsL (Json.obj fs) from rfl, hobj,
        List.getLast?_concat] at hc
      simp at hc
      subst hc
      decide)
    (by
      rw [show (jsonDumps (Json.obj fs)).data = dumpsL (Json.obj fs) from rfl, hobj]
      simp)
    (by
      rw [show (jsonDumps (Json.obj fs)).data = dumpsL (Json.obj fs) from rfl]
      rw [stripL_eq_self
        (by
          intro c hc
          rw [show dumpsL (Json.obj fs) = '\x7b' :: (dumpFieldsL fs ++ ['\x7d']) from rfl] at hc
          simp at hc
          subst hc
          decide)
        (by
          intro c hc
          rw [hobj, List.getLast?_concat] at hc
          simp at hc
          subst hc
          decide)]
      exact jsonLoadsL_dumpsL (Json.obj fs))]
  rw [relay_blank (some T) [] [] rfl]
  rfl

/-- C4: encoding any event with the SSE builders (delta/state/done/error)
and parsing the result with the SSE line-splitter yields the original event
type and a payload that JSON-decodes to an object with exactly the
non-absent fields; absent optional fields are omitted from the object
entirely, never emitted as null. -/
theorem C4_sse_roundtrip (e : BuiltEvent) :
    AgentClient.invoke none (splitlinesL e.encode.data) = [(some e.typeStr, e.payload)] ∧
    (∀ text, (BuiltEvent.delta text none).payload = Json.obj [("text", Json.str text)]) ∧
    (∀ text r, (BuiltEvent.delta text (some r)).payload
      = Json.obj [("text", Json.str text), ("run_id", Json.str r)]) ∧
    (∀ st, (BuiltEvent.state st none).payload = Json.obj [("state", Json.str st)]) ∧
    (∀ st d, (BuiltEvent.state st (some d)).payload
      = Json.obj [("state", Json.str st), ("detail", Json.obj d)]) ∧
    ((BuiltEvent.done none none).payload = Json.obj []) ∧
    (∀ fm, (BuiltEvent.done (some fm) none).payload
      = Json.obj [("final_message", Json.str fm)]) ∧
    (∀ c m, (BuiltEvent.error c m).payload
      = Json.obj [("code", Json.str c), ("message", Json.str m)]) := by
  refine ⟨?_, fun text => rfl, fun text r => rfl, fun st => rfl, fun st d => rfl, rfl,
    fun fm => rfl, fun c m => rfl⟩
  have hhyp : ∀ (T : String), T = "delta" ∨ T = "state" ∨ T = "done" ∨ T = "error" →
      (∀ c, T.data.head? = some c → isPyWs c = false) ∧
      (∀ c, T.data.getLast? = some c → isPyWs c = false) ∧
      T.data ≠ [] ∧ '\n' ∉ T.data := by
    intro T hT
    rcases hT with h | h | h | h <;> subst h <;>
      exact ⟨fun c hc => by simp at hc; subst hc; decide,
             fun c hc => by simp at hc; subst hc; decide,
             by decide, by decide⟩
  cases e with
  | delta text rid =>
    obtain ⟨h1, h2, h3, h4⟩ := hhyp "delta" (Or.inl rfl)
    exact relay_single_event "delta" _ h1 h2 h3 h4
  | state st d =>
    obtain ⟨h1, h2, h3, h4⟩ := hhyp "state" (Or.inr (Or.inl rfl))
    exact relay_single_event "state" _ h1 h2 h3 h4
  | done fm u =>
    obtain ⟨h1, h2, h3, h4⟩ := hhyp "done" (Or.inr (Or.inr (Or.inl rfl)))
    exact relay_single_event "done" _ h1 h2 h3 h4
  | error c m =>
    obtain ⟨h1, h2, h3, h4⟩ := hhyp "error" (Or.inr (Or.inr (Or.inr rfl)))
    exact relay_single_event "error" _ h1 h2 h3 h4

theorem chunksF_indep (n : Nat) :
    ∀ (l : List Char) f1 f2 cs, l.length ≤ n → l.length ≤ f1 → l.length ≤ f2 → l ≠ [] →
      chunksF f1 cs l = chunksF f2 cs l := by
  induction n with
  | zero =>
    intro l f1 f2 cs hn h1 h2 hne
    cases l with
    | nil => exact absurd rfl hne
    | cons c t => simp at hn
  | succ n ih =>
    intro l f1 f2 cs hn h1 h2 hne
    cases l with
    | nil => exact absurd rfl hne
    | cons c t =>
      match f1, f2 with
      | g1 + 1, g2 + 1 =>
        show (c :: t).take cs :: chunksF g1 cs (t.drop (cs - 1))
          = (c :: t).take cs :: chunksF g2 cs (t.drop (cs - 1))
        by_cases hd : t.drop (cs - 1) = []
        · rw [hd]
          cases g1 <;> cases g2 <;> rfl
        · have hlen : (t.drop (cs - 1)).length ≤ t.length := by
            simp
          simp at hn h1 h2
          rw [ih (t.drop (cs - 1)) g1 g2 cs (by omega) (by omega) (by omega) hd]

theorem chunksL_cons (cs : Nat) (c : Char) (t : List Char) :
    chunksL cs (c :: t) = (c :: t).take cs :: chunksL cs (t.drop (cs - 1)) := by
  unfold chunksL
  show (c :: t).take cs :: chunksF t.length cs (t.drop (cs - 1)) = _
  by_cases hd : t.drop (cs - 1) = []
  · rw [hd]
    cases ht : t.length <;> rfl
  · have hlen : (t.drop (cs - 1)).length ≤ t.length := by
      simp
    show _ :: chunksF t.length cs (t.drop (cs - 1))
      = _ :: chunksF (t.drop (cs - 1)).length cs (t.drop (cs - 1))
    congr 1
    exact chunksF_indep (t.drop (cs - 1)).length (t.drop (cs - 1)) t.length
      (t.drop (cs - 1)).length cs (Nat.le_refl _) hlen (Nat.le_refl _) hd

theorem chunksL_join (cs : Nat) (hcs : 1 ≤ cs) :
    ∀ n (l : List Char), l.length ≤ n → joinL (chunksL cs l) = l := by
  intro n
  induction n with
  | zero =>
    intro l hl
    cases l with
    | nil => rfl
    | cons c t => simp at hl
  | succ n ih =>
    intro l hl
    cases l with
    | nil => rfl
    | cons c t =>
      rw [chunksL_cons]
      show (c :: t).take cs ++ joinL (chunksL cs (t.drop (cs - 1))) = c :: t
      have hdrop : t.drop (cs - 1) = (c :: t).drop cs := by
        match cs, hcs with
        | k + 1, _ => simp
      have hlen : ((c :: t).drop cs).length ≤ n := by
        have h1 : ((c :: t).drop cs).length = (c :: t).length - cs := by simp
        simp at hl h1 ⊢
        omega
      rw [hdrop, ih _ hlen, List.take_append_drop]

theorem chunksL_length (cs : Nat) (hcs : 1 ≤ cs) :
    ∀ n (l : List Char), l.length ≤ n →
      (chunksL cs l).length = (l.length + cs - 1) / cs := by
  intro n
  induction n with
  | zero =>
    intro l hl
    cases l with
    | nil =>
      show 0 = (0 + cs - 1) / cs
      rw [Nat.div_eq_of_lt (by omega)]
    | cons c t => simp at hl
  | succ n ih =>
    intro l hl
    cases l with
    | nil =>
      show 0 = (0 + cs - 1) / cs
      rw [Nat.div_eq_of_lt (by omega)]
    | cons c t =>
      rw [chunksL_cons]
      show (chunksL cs (t.drop (cs - 1))).length + 1 = ((c :: t).length + cs - 1) / cs
      have hlen : (t.drop (cs - 1)).length = t.length - (cs - 1) := by simp
      have hlen2 : (t.drop (cs - 1)).length ≤ n := by
        simp at hl
        omega
      rw [ih _ hlen2, hlen]
      have hn : (c :: t).length = t.length + 1 := by simp
      rw [hn]
      rcases Nat.lt_or_ge t.length cs with hc | hc
      · rw [show t.length - (cs - 1) = 0 by omega]
        rw [Nat.div_eq_of_lt (by omega)]
        rw [show t.length + 1 + cs - 1 = t.length + cs by omega]
        rw [show t.length + cs = t.length + 1 * cs by omega]
        rw [Nat.add_mul_div_right _ _ (by omega)]
        rw [Nat.div_eq_of_lt (by omega)]
      · rw [show t.length - (cs - 1) + cs - 1 = (t.length - cs) + cs by omega]
        rw [Nat.add_div_right _ (by omega)]
        rw [show t.length + 1 + cs - 1 = (t.length - cs) + cs + cs by omega]
        rw [Nat.add_div_right _ (by omega), Nat.add_div_right _ (by omega)]

/-- C10: for chunk_size ≥ 1, stream_text_sync (and stream_text, whose
inter-chunk sleep emits nothing) produces ceil(len/chunk_size) delta events
whose texts concatenate to the input, followed by exactly one done event
with final_message = text as the unique last and terminal element; the empty
string yields a single done event, so the stream is never empty. -/
theorem C10_stream_text (text : String) (run_id : Option String)
    (chunk_size delay_ms : Nat) (hcs : 1 ≤ chunk_size) :
    stream_text_sync text run_id chunk_size
      = (chunksL chunk_size text.data).map
          (fun ch => SSEResponse.delta { run_id := run_id } (String.mk ch))
        ++ [SSEResponse.done { run_id := run_id } (some text) none] ∧
    (chunksL chunk_size text.data).length = (text.length + chunk_size - 1) / chunk_size ∧
    joinL (chunksL chunk_size text.data) = text.data ∧
    stream_text_sync text run_id chunk_size ≠ [] ∧
    (stream_text_sync text run_id chunk_size).getLast?
      = some (SSEResponse.done { run_id := run_id } (some text) none) ∧
    (text = "" → stream_text_sync text run_id chunk_size
      = [SSEResponse.done { run_id := run_id } (some "") none]) ∧
    stream_text text run_id chunk_size delay_ms = stream_text_sync text run_id chunk_size := by
  refine ⟨rfl, ?_, ?_, ?_, ?_, ?_, rfl⟩
  · exact chunksL_length chunk_size hcs text.data.length text.data (Nat.le_refl _)
  · exact chunksL_join chunk_size hcs text.data.length text.data (Nat.le_refl _)
  · simp [stream_text_sync]
  · unfold stream_text_sync
    rw [List.getLast?_concat]
  · intro h
    subst h
    rfl

/-- Witness for C10 at text "hello", chunk size 2: three deltas then one
done. -/
theorem C10_stream_text_witness :
    stream_text_sync "hello" (some "r1") 2
      = [SSEResponse.delta { run_id := some "r1" } "he",
         SSEResponse.delta { run_id := some "r1" } "ll",
         SSEResponse.delta { run_id := some "r1" } "o",
         SSEResponse.done { run_id := some "r1" } (some "hello") none] ∧
    (chunksL 2 "hello".data).length = ("hello".length + 2 - 1) / 2 ∧
    joinL (chunksL 2 "hello".data) = "hello".data ∧
    stream_text "hello" (some "r1") 2 50 = stream_text_sync "hello" (some "r1") 2 := by
  have h := C10_stream_text "hello" (some "r1") 2 50 (by omega)
  exact ⟨rfl, h.2.1, h.2.2.1, h.2.2.2.2.2.2⟩

